import Mathlib

/-!
Verification of the pin-control generator `script/gen_pinctrl.py`.

The script builds, per device family, a nested model
`peripherals : dict[str, dict]` where each peripheral dict holds a `"_base"`
word offset plus one dict per signal with optional keys `"en"`, `"route"` and
`"pinout"` (`dict[int, set[int]]`).  We embed this shallowly:

* Python dicts become insertion-ordered association lists (`List (String × _)`,
  `List (Nat × _)`), looked up by first occurrence, exactly like `dict`
  access; inserting a fresh key appends, updating an existing key rewrites it
  in place, matching `dict` semantics.
* The reserved `"_base"` key of a peripheral dict (always written at creation,
  skipped on iteration) becomes the `base` field of `PeriphData`, and the
  remaining keys become the `signals` association list.
* `set[int]` becomes a duplicate-free `List Nat` in insertion order, with
  `add` appending only fresh elements (Python set iteration order is never
  observed by the script: pins are always passed through `sorted`, modelled by
  `List.insertionSort`).
* Fallible operations (`str.split` destructuring, `data['pinout']` access,
  `next(filter(...))`) return `Except String _`.
-/

namespace GenPinctrl

/-! ### Python string primitives -/

/-- Python `s.endswith(suffix)`: `suffix` is a suffix of `s`. -/
def pyEndsWith (s sfx : String) : Bool :=
  sfx.data.isSuffixOf s.data

/-- Python slicing `s[:-n]`: drop the last `n` characters (all of them when
`n ≥ len(s)`). -/
def pyDropRight (s : String) (n : Nat) : String :=
  ⟨s.data.take (s.data.length - n)⟩

/-- Helper for `s.split("_", 1)`: split a character list at the first
underscore, `none` when there is no underscore. -/
def splitFirstAux : List Char → Option (List Char × List Char)
  | [] => none
  | c :: rest =>
    if c = '_' then some ([], rest)
    else
      match splitFirstAux rest with
      | some ab => some (c :: ab.1, ab.2)
      | none => none

/-- Python `peripheral, signal = reg.name.split("_", 1)`: yields the two parts
around the first underscore, and fails (`ValueError` on unpacking) when the
name has no underscore. -/
def splitFirstUnderscore (s : String) : Option (String × String) :=
  match splitFirstAux s.data with
  | some ab => some (⟨ab.1⟩, ⟨ab.2⟩)
  | none => none

/-! ### Rename tables (`peripheral_rename_map`, `signal_rename_map`,
`pt_signal_rename_map` in the source) -/

def peripheral_rename_map : List (String × String) :=
  [("FRC", "PTI"),
   ("LETIMER", "LETIMER0"),
   ("SYXO0", "HFXO0")]

def signal_rename_map : List (String × String) :=
  [("CCC0", "CDTI0"),
   ("CCC1", "CDTI1"),
   ("CCC2", "CDTI2"),
   ("CCC3", "CDTI3")]

def pt_signal_rename_map : List (String × String) :=
  [("ACMPOUT", "DIGOUT"),
   ("COLOUT0", "COL_OUT_0"),
   ("COLOUT1", "COL_OUT_1"),
   ("COLOUT2", "COL_OUT_2"),
   ("COLOUT3", "COL_OUT_3"),
   ("COLOUT4", "COL_OUT_4"),
   ("COLOUT5", "COL_OUT_5"),
   ("COLOUT6", "COL_OUT_6"),
   ("COLOUT7", "COL_OUT_7"),
   ("ROWSENSE0", "ROW_SENSE_0"),
   ("ROWSENSE1", "ROW_SENSE_1"),
   ("ROWSENSE2", "ROW_SENSE_2"),
   ("ROWSENSE3", "ROW_SENSE_3"),
   ("ROWSENSE4", "ROW_SENSE_4"),
   ("ROWSENSE5", "ROW_SENSE_5"),
   ("ANTROLLOVER", "ANT_ROLL_OVER"),
   ("ANTRR0", "ANT_RR0"),
   ("ANTRR1", "ANT_RR1"),
   ("ANTRR2", "ANT_RR2"),
   ("ANTRR3", "ANT_RR3"),
   ("ANTRR4", "ANT_RR4"),
   ("ANTRR5", "ANT_RR5"),
   ("ANTSWEN", "ANT_SW_EN"),
   ("ANTSWUS", "ANT_SW_US"),
   ("ANTTRIG", "ANT_TRIG"),
   ("ANTTRIGSTOP", "ANT_TRIG_STOP"),
   ("BUFOUTREQINASYNC", "BUFOUT_REQ_IN_ASYNC"),
   ("USBVBUSSENSE", "USB_VBUS_SENSE")]

/-- `if name in table: name = table[name]` — lookup with identity default. -/
def rename (tbl : List (String × String)) (n : String) : String :=
  match tbl.lookup n with
  | some r => r
  | none => n

/-! ### The model -/

/-- One signal dict: optional `"en"`, `"route"` and `"pinout"` keys.
`route` is an `Int` because the source computes it by subtraction of word
offsets.  `pinout` is an insertion-ordered map from port index to pin set. -/
structure SigData where
  en : Option Nat := none
  route : Option Int := none
  pinout : Option (List (Nat × List Nat)) := none
deriving DecidableEq

/-- One peripheral dict: the `"_base"` entry plus the signal entries. -/
structure PeriphData where
  base : Nat
  signals : List (String × SigData) := []
deriving DecidableEq

/-- The whole `peripherals` dict. -/
abbrev Model := List (String × PeriphData)

/-- `dict` update of every entry with key `k` (a Python dict holds it at most
once); insertion order is preserved. -/
def alSet (k : String) (f : α → α) (l : List (String × α)) : List (String × α) :=
  l.map fun e => if e.1 == k then (e.1, f e.2) else e

/-- `if k not in d: d[k] = v` — append a fresh key at the end. -/
def alInsertIfAbsent (k : String) (v : α) (l : List (String × α)) : List (String × α) :=
  if (l.lookup k).isSome then l else l ++ [(k, v)]

def insertPeriphIfAbsent (m : Model) (p : String) (b : Nat) : Model :=
  alInsertIfAbsent p { base := b } m

def insertSigIfAbsent (m : Model) (p s : String) : Model :=
  alSet p (fun pd => { pd with signals := alInsertIfAbsent s {} pd.signals }) m

def setEnIfUnset (m : Model) (p s : String) (b : Nat) : Model :=
  alSet p (fun pd =>
    { pd with
      signals := alSet s (fun sd => if sd.en.isSome then sd else { sd with en := some b })
        pd.signals }) m

def setRouteIfUnset (m : Model) (p s : String) (r : Int) : Model :=
  alSet p (fun pd =>
    { pd with
      signals := alSet s (fun sd => if sd.route.isSome then sd else { sd with route := some r })
        pd.signals }) m

/-- `peripherals[p][s]` as an optional lookup. -/
def getSig (m : Model) (p s : String) : Option SigData :=
  (m.lookup p).bind fun pd => pd.signals.lookup s

/-! ### Register model extractor (`parse_svd`) -/

structure SVDField where
  name : String
  bit_offset : Nat
deriving DecidableEq

structure SVDRegister where
  name : String
  address_offset : Nat
  fields : List SVDField
deriving DecidableEq

structure SVDPeripheral where
  name : String
  registers : List SVDRegister
deriving DecidableEq

/-- The body of the `for field in reg.fields` loop of the `_ROUTEEN` branch:
for a `PEN`-suffixed field, insert the (renamed) signal if new and set its
`"en"` bit if not already set. -/
def enFieldStep (peripheral : String) (acc : Model) (field : SVDField) : Model :=
  if pyEndsWith field.name "PEN" then
    let signal := rename signal_rename_map (pyDropRight field.name 3)
    setEnIfUnset (insertSigIfAbsent acc peripheral signal) peripheral signal
      field.bit_offset
  else acc

/-- The `reg.name.endswith("_ROUTEEN")` branch of `parse_svd` (always total). -/
def routeenStep (m : Model) (reg : SVDRegister) : Model :=
  if pyEndsWith reg.name "_ROUTEEN" then
    let peripheral := rename peripheral_rename_map (pyDropRight reg.name 8)
    reg.fields.foldl (enFieldStep peripheral)
      (insertPeriphIfAbsent m peripheral (reg.address_offset / 4))
  else m

/-- The `reg.name.endswith("ROUTE")` branch of `parse_svd`.  It fails exactly
when the register name has no underscore (`ValueError` from tuple unpacking). -/
def routeStep (m : Model) (reg : SVDRegister) : Except String Model :=
  if pyEndsWith reg.name "ROUTE" then
    match splitFirstUnderscore reg.name with
    | none => Except.error ("ValueError: not enough values to unpack: " ++ reg.name)
    | some ps =>
      let peripheral := rename peripheral_rename_map ps.1
      let signal := rename signal_rename_map (pyDropRight ps.2 5)
      let m1 := insertPeriphIfAbsent m peripheral (reg.address_offset / 4)
      let m2 := insertSigIfAbsent m1 peripheral signal
      match m2.lookup peripheral with
      | none => Except.error "KeyError: _base"
      | some pd =>
        Except.ok (setRouteIfUnset m2 peripheral signal
          ((reg.address_offset / 4 : Nat) - (pd.base : Int)))
  else Except.ok m

/-- Processing of one register: the source checks the `_ROUTEEN` suffix and
then, independently, the `ROUTE` suffix (two separate `if`s). -/
def parseSvdStep (m : Model) (reg : SVDRegister) : Except String Model :=
  routeStep (routeenStep m reg) reg

/-- `parse_svd` over the register list of the GPIO peripheral. -/
def parse_svd (m : Model) (regs : List SVDRegister) : Except String Model :=
  regs.foldlM parseSvdStep m

/-- `parse_svd` over a whole register document:
`next(filter(lambda p: p.name == "GPIO_NS", ...))` then the register loop. -/
def parse_svd_doc (m : Model) (doc : List SVDPeripheral) : Except String Model :=
  match doc.find? (fun p => p.name == "GPIO_NS") with
  | none => Except.error "StopIteration: no GPIO_NS peripheral"
  | some gpio => parse_svd m gpio.registers

/-- Processing a sequence of register documents (one per variant). -/
def parse_svd_docs (m : Model) (docs : List (List SVDRegister)) : Except String Model :=
  docs.foldlM parse_svd m

/-! ### Routing capability extractor (`parse_pin_tool`)

A `PORTIO.portio` document, reduced to the parts the two xpath queries
`portIo/pinRoutes/module[@name=...]/selector[@name=...]` and
`route[@name=...]/location` read. -/

structure PTLocation where
  portBankIndex : Nat
  pinIndex : Nat
deriving DecidableEq

structure PTRoute where
  name : String
  locations : List PTLocation
deriving DecidableEq

structure PTSelector where
  name : String
  routes : List PTRoute
deriving DecidableEq

structure PTModule where
  name : String
  selectors : List PTSelector
deriving DecidableEq

structure PortIoDoc where
  modules : List PTModule
deriving DecidableEq

/-- The lookup names for one model signal: the module name, the selector name
and the route name the script queries the document with.  `PRS0` uses the
special two-part module key `PRS.<signal>` and the fixed `PRS` selector
namespace; every other peripheral uses its own name. -/
def ptNames (peripheral signal : String) : String × String × String :=
  let pt_signal := rename pt_signal_rename_map signal
  if peripheral == "PRS0" then
    ("PRS." ++ signal, "PRS" ++ "_" ++ pt_signal, pt_signal)
  else
    (peripheral, peripheral ++ "_" ++ pt_signal, pt_signal)

/-- The xpath `module[@name=modName]/selector[@name=selName]` query followed by
the `for ... break` that keeps only the first hit. -/
def findSelector (doc : PortIoDoc) (modName selName : String) : Option PTSelector :=
  ((doc.modules.filter (fun md => md.name == modName)).flatMap
      (fun md => md.selectors)).find?
    (fun sel => sel.name == selName)

/-- The xpath `route[@name=routeName]/location` query below a selector node. -/
def selRouteLocations (sel : PTSelector) (routeName : String) : List PTLocation :=
  (sel.routes.filter (fun rt => rt.name == routeName)).flatMap (fun rt => rt.locations)

/-- Python `set.add` on the dedup-list representation. -/
def pySetAdd (s : List Nat) (x : Nat) : List Nat :=
  if s.contains x then s else s ++ [x]

/-- `if port not in pinout: pinout[port] = set()` followed by
`pinout[port].add(pin)`. -/
def addLoc : List (Nat × List Nat) → Nat → Nat → List (Nat × List Nat)
  | [], port, pin => [(port, [pin])]
  | e :: rest, port, pin =>
    if e.1 == port then (e.1, pySetAdd e.2 pin) :: rest
    else e :: addLoc rest port pin

def addLocs (po : List (Nat × List Nat)) (locs : List PTLocation) : List (Nat × List Nat) :=
  locs.foldl (fun acc l => addLoc acc l.portBankIndex l.pinIndex) po

/-- The two kinds of warning the script prints. -/
inductive Warn where
  | noRoute (peripheral signal : String)
  | noMatch (peripheral signal : String)
deriving DecidableEq

/-- The body of `parse_pin_tool`'s inner loop for one model signal: establish
the `"pinout"` key, then union in the locations below the first matching
selector; warn when no module/selector matches. -/
def ptProcessSignal (doc : PortIoDoc) (peripheral signal : String) (sd : SigData) :
    SigData × List Warn :=
  let names := ptNames peripheral signal
  let po := sd.pinout.getD []
  match findSelector doc names.1 names.2.1 with
  | some sel => ({ sd with pinout := some (addLocs po (selRouteLocations sel names.2.2)) }, [])
  | none => ({ sd with pinout := some po }, [Warn.noMatch peripheral signal])

/-- `parse_pin_tool` over one routing document: visit every signal of every
peripheral already in the model, in model order. -/
def parse_pin_tool (m : Model) (doc : PortIoDoc) : Model × List Warn :=
  (m.map (fun e =>
      (e.1, { e.2 with
              signals := e.2.signals.map
                (fun se => (se.1, (ptProcessSignal doc e.1 se.1 se.2).1)) })),
   m.flatMap (fun e =>
     e.2.signals.flatMap (fun se => (ptProcessSignal doc e.1 se.1 se.2).2)))

/-- Processing a sequence of routing documents (model part only). -/
def processPinDocs (m : Model) (ds : List PortIoDoc) : Model :=
  ds.foldl (fun acc d => (parse_pin_tool acc d).1) m

/-! ### Serializer (`write_header`) -/

/-- One output line of the generated header, kept structured; `renderEmit`
recovers the exact text the script writes. -/
inductive Emit where
  | raw (line : String)
  | macroDef (peripheral signal : String) (base : Nat) (hasEn : Bool) (en : Nat) (route : Int)
  | pinDef (peripheral signal : String) (port pin : Nat)
deriving DecidableEq

/-- First serializer loop, body over one peripheral's signal dicts: a
parameterized macro per signal holding a `"route"` key, a warning (print, not
an output line) otherwise. -/
def emitSigDefs (p : String) (base : Nat) : List (String × SigData) → List Emit × List Warn
  | [] => ([], [])
  | e :: rest =>
    let r := emitSigDefs p base rest
    match e.2.route with
    | some rt => (Emit.macroDef p e.1 base e.2.en.isSome (e.2.en.getD 0) rt :: r.1, r.2)
    | none => (r.1, Warn.noRoute p e.1 :: r.2)

/-- First serializer loop over all peripherals (one blank line each). -/
def emitDefs : Model → List Emit × List Warn
  | [] => ([], [])
  | e :: rest =>
    let a := emitSigDefs e.1 e.2.base e.2.signals
    let b := emitDefs rest
    (Emit.raw "" :: a.1 ++ b.1, a.2 ++ b.2)

/-- Second serializer loop, body for one signal:
`for port, pins in data['pinout'].items(): for pin in sorted(pins): ...`. -/
def emitPinsSig (p s : String) (po : List (Nat × List Nat)) : List Emit :=
  po.flatMap (fun e =>
    (List.insertionSort (· ≤ ·) e.2).map (fun pin => Emit.pinDef p s e.1 pin))

/-- Second serializer loop over one peripheral's signals.  The unconditional
`data['pinout']` access raises `KeyError` when a signal has no `"pinout"`
key. -/
def emitPinsSigs (p : String) : List (String × SigData) → Except String (List Emit)
  | [] => Except.ok []
  | e :: rest =>
    match e.2.pinout with
    | none => Except.error ("KeyError: pinout of " ++ p ++ "_" ++ e.1)
    | some po =>
      match emitPinsSigs p rest with
      | Except.error msg => Except.error msg
      | Except.ok es => Except.ok (emitPinsSig p e.1 po ++ es)

/-- Second serializer loop over all peripherals (one blank line each). -/
def emitPins : Model → Except String (List Emit)
  | [] => Except.ok []
  | e :: rest =>
    match emitPinsSigs e.1 e.2.signals with
    | Except.error msg => Except.error msg
    | Except.ok a =>
      match emitPins rest with
      | Except.error msg => Except.error msg
      | Except.ok b => Except.ok (Emit.raw "" :: a ++ b)

/-- The fixed lines `write_header` puts before the two loops. -/
def headerPrelude (family : String) : List Emit :=
  [Emit.raw "/*",
   Emit.raw (" * Pin Control for Silicon Labs " ++ family ++ " devices"),
   Emit.raw " * Copyright (c) 2024 Silicon Laboratories Inc.",
   Emit.raw " *",
   Emit.raw " * SPDX-License-Identifier: Apache-2.0",
   Emit.raw " */",
   Emit.raw "",
   Emit.raw "#include <dt-bindings/pinctrl/silabs-pinctrl-dbus.h>"]

/-- `write_header`: prelude, macro-definition loop, pin-definition loop, one
trailing blank line; the warnings of the first loop are returned alongside. -/
def write_header (family : String) (m : Model) : Except String (List Emit × List Warn) :=
  let a := emitDefs m
  match emitPins m with
  | Except.error msg => Except.error msg
  | Except.ok b => Except.ok (headerPrelude family ++ a.1 ++ b ++ [Emit.raw ""], a.2)

/-- `chr(65 + port)` as a one-character string. -/
def portLetter (port : Nat) : String :=
  String.singleton (Char.ofNat (65 + port))

/-- The exact text of each output line (the f-strings of the source). -/
def renderEmit : Emit → String
  | Emit.raw l => l
  | Emit.macroDef p s base hasEn en route =>
    "#define SILABS_DBUS_" ++ p ++ "_" ++ s ++ "(port, pin) SILABS_DBUS(port, pin, " ++
      toString base ++ ", " ++ (if hasEn then "1" else "0") ++ ", " ++ toString en ++ ", " ++
      toString route ++ ")"
  | Emit.pinDef p s port pin =>
    "#define " ++ p ++ "_" ++ s ++ "_P" ++ portLetter port ++ toString pin ++
      " SILABS_DBUS_" ++ p ++ "_" ++ s ++ "(" ++ toString port ++ ", " ++ toString pin ++ ")"

/-! ### Observation helpers used by the theorems -/

/-- The emitted lines of a serializer run, empty on failure. -/
def linesOf (r : Except String (List Emit × List Warn)) : List Emit :=
  match r with
  | Except.ok x => x.1
  | Except.error _ => []

/-- The warnings of a serializer run, empty on failure. -/
def warnsOf (r : Except String (List Emit × List Warn)) : List Warn :=
  match r with
  | Except.ok x => x.2
  | Except.error _ => []

/-- The concrete (port, pin) definitions emitted for one signal, in emission
order. -/
def pinDefsOf (es : List Emit) (p s : String) : List (Nat × Nat) :=
  es.filterMap (fun e =>
    match e with
    | Emit.pinDef p1 s1 port pin => if p1 == p && s1 == s then some (port, pin) else none
    | _ => none)

/-- The set of locations recorded in a pinout value. -/
def locSet : List (Nat × List Nat) → Finset (Nat × Nat)
  | [] => ∅
  | e :: rest => (e.2.map (fun pin => (e.1, pin))).toFinset ∪ locSet rest

/-- The set of locations in a raw location list. -/
def locsFinset : List PTLocation → Finset (Nat × Nat)
  | [] => ∅
  | l :: rest => insert (l.portBankIndex, l.pinIndex) (locsFinset rest)

/-- The locations one routing document contributes to one model signal. -/
def ptContrib (doc : PortIoDoc) (peripheral signal : String) : List PTLocation :=
  let names := ptNames peripheral signal
  match findSelector doc names.1 names.2.1 with
  | some sel => selRouteLocations sel names.2.2
  | none => []

def contribSet (doc : PortIoDoc) (p s : String) : Finset (Nat × Nat) :=
  locsFinset (ptContrib doc p s)

/-- The location set of a signal's pinout (`∅` when the `"pinout"` key is
still missing). -/
def sigPinSet (m : Model) (p s : String) : Option (Finset (Nat × Nat)) :=
  (getSig m p s).map (fun sd => locSet (sd.pinout.getD []))

/-- A model is dict-shaped: peripheral keys are distinct, and so are the
signal keys inside each peripheral. -/
def WFModel (m : Model) : Prop :=
  (m.map Prod.fst).Nodup ∧ ∀ e ∈ m, (e.2.signals.map Prod.fst).Nodup

/-- `reg` mentions peripheral `p`: it is a `_ROUTEEN` or `ROUTE` register
whose (renamed) peripheral part is `p`. -/
def regMentions (p : String) (reg : SVDRegister) : Bool :=
  (pyEndsWith reg.name "_ROUTEEN" &&
    (rename peripheral_rename_map (pyDropRight reg.name 8) == p)) ||
  (pyEndsWith reg.name "ROUTE" &&
    (match splitFirstUnderscore reg.name with
     | some ps => rename peripheral_rename_map ps.1 == p
     | none => false))

/-- The canonical peripheral name of a `ROUTE` register split at its first
underscore. -/
def routeRegPeriph (ps : String × String) : String :=
  rename peripheral_rename_map ps.1

/-- The canonical signal name of a `ROUTE` register split at its first
underscore: strip the 5-character `ROUTE` suffix, then rename. -/
def routeRegSignal (ps : String × String) : String :=
  rename signal_rename_map (pyDropRight ps.2 5)

/-- `m'` keeps everything already fixed in `m`: every existing peripheral is
still present with the same base, and every existing signal is still present
with its `"en"` and `"route"` keys intact once set. -/
def ModelExtends (m m' : Model) : Prop :=
  (∀ p pd, m.lookup p = some pd →
    ∃ pd', m'.lookup p = some pd' ∧ pd'.base = pd.base) ∧
  (∀ p s sd, getSig m p s = some sd →
    ∃ sd', getSig m' p s = some sd' ∧
      (sd.en.isSome = true → sd'.en = sd.en) ∧
      (sd.route.isSome = true → sd'.route = sd.route))

/-- Did a fallible step succeed? -/
def exOk {α : Type} (r : Except String α) : Bool :=
  match r with
  | Except.ok _ => true
  | Except.error _ => false

/-- The error message of a failed step, `none` on success. -/
def exErr {α : Type} (r : Except String α) : Option String :=
  match r with
  | Except.ok _ => none
  | Except.error e => some e

instance decWFModel (m : Model) : Decidable (WFModel m) :=
  inferInstanceAs (Decidable (_ ∧ _))

/-! ### Concrete documents used by the example-based theorems -/

/-- The register document of the end-to-end scenario: `GPIO_NS` with
`TIMER0_ROUTEEN` at byte offset 0x20 (field `CC0PEN` at bit 0) and
`TIMER0_CC0ROUTE` at byte offset 0x24. -/
def c2svd : List SVDPeripheral :=
  [{ name := "GPIO_NS",
     registers :=
       [{ name := "TIMER0_ROUTEEN", address_offset := 0x20,
          fields := [{ name := "CC0PEN", bit_offset := 0 }] },
        { name := "TIMER0_CC0ROUTE", address_offset := 0x24, fields := [] }] }]

/-- The routing document of the end-to-end scenario: module `TIMER0`,
selector `TIMER0_CC0`, route `CC0`, one location with portBankIndex 0 and
pinIndex 5. -/
def c2pt : PortIoDoc :=
  { modules :=
      [{ name := "TIMER0",
         selectors :=
           [{ name := "TIMER0_CC0",
              routes :=
                [{ name := "CC0",
                   locations := [{ portBankIndex := 0, pinIndex := 5 }] }] }] }] }

/-- The model after the end-to-end scenario's register document. -/
def c2m1 : Model :=
  match parse_svd_doc [] c2svd with
  | Except.ok m => m
  | Except.error _ => []

/-- The model after the end-to-end scenario's two documents. -/
def c2model : Model := (parse_pin_tool c2m1 c2pt).1

/-- A register document whose `TIMER0_ROUTEEN` register mentions signal `CC0`
but that contains no `TIMER0_CC0ROUTE` register, so `CC0` never receives a
`"route"` key. -/
def cexSvd : List SVDPeripheral :=
  [{ name := "GPIO_NS",
     registers :=
       [{ name := "TIMER0_ROUTEEN", address_offset := 0x20,
          fields := [{ name := "CC0PEN", bit_offset := 0 }] }] }]

/-- A routing document for `TIMER0_CC0` listing port 1 before port 0. -/
def cexPt : PortIoDoc :=
  { modules :=
      [{ name := "TIMER0",
         selectors :=
           [{ name := "TIMER0_CC0",
              routes :=
                [{ name := "CC0",
                   locations := [{ portBankIndex := 1, pinIndex := 2 },
                                 { portBankIndex := 0, pinIndex := 5 }] }] }] }] }

/-- The model built from `cexSvd` then `cexPt`: signal `TIMER0`/`CC0` has
`enable_bit` 0, no `route_offset`, and pinout ports in the order 1, 0. -/
def cexModel : Model :=
  match parse_svd_doc [] cexSvd with
  | Except.ok m => (parse_pin_tool m cexPt).1
  | Except.error _ => []

/-- A later register document introducing the fresh signal `USART0`/`TX`
after the last routing document has been processed. -/
def c10svd : List SVDPeripheral :=
  [{ name := "GPIO_NS",
     registers :=
       [{ name := "USART0_ROUTEEN", address_offset := 0x40,
          fields := [{ name := "TXPEN", bit_offset := 1 }] }] }]

/-- `cexModel` (whose signals all have a pinout) extended by a signal that no
routing document ever visited. -/
def c10model : Model :=
  match parse_svd_doc cexModel c10svd with
  | Except.ok m => m
  | Except.error _ => []

/-- A one-signal model used by the routing-aggregation examples. -/
def c5model : Model :=
  [("TIMER0", { base := 8, signals := [("CC0", {})] })]

/-- Variant A's routing document: location (0, 5) for `TIMER0_CC0`. -/
def c5docA : PortIoDoc := c2pt

/-- Variant B's routing document: location (1, 2) for `TIMER0_CC0`. -/
def c5docB : PortIoDoc :=
  { modules :=
      [{ name := "TIMER0",
         selectors :=
           [{ name := "TIMER0_CC0",
              routes :=
                [{ name := "CC0",
                   locations := [{ portBankIndex := 1, pinIndex := 2 }] }] }] }] }

/-- A module whose name matches no lookup name of `c5model`. -/
def c6extraModule : PTModule :=
  { name := "USART0",
    selectors :=
      [{ name := "USART0_TX",
         routes :=
           [{ name := "TX", locations := [{ portBankIndex := 3, pinIndex := 7 }] }] }] }

/-- Two register documents of a family: the second repeats the `_ROUTEEN`
register of the first (redundant definition across variants). -/
def c4docs : List (List SVDRegister) :=
  [[{ name := "TIMER0_ROUTEEN", address_offset := 0x20,
      fields := [{ name := "CC0PEN", bit_offset := 0 }] },
    { name := "TIMER0_CC0ROUTE", address_offset := 0x24, fields := [] }],
   [{ name := "TIMER0_ROUTEEN", address_offset := 0x20,
      fields := [{ name := "CC0PEN", bit_offset := 0 }] }]]

/-- A `ROUTE`-suffixed register whose name has no underscore: `split("_", 1)`
cannot be unpacked into two names. -/
def c9reg : SVDRegister :=
  { name := "XROUTE", address_offset := 0x10, fields := [] }

/-! ## Association-list lemmas (dict semantics) -/

theorem lookup_map_dep {α : Type} (l : List (String × α)) (f : String → α → α) (k : String) :
    (l.map (fun e => (e.1, f e.1 e.2))).lookup k = (l.lookup k).map (f k) := by
  induction l with
  | nil => rfl
  | cons e t ih =>
    obtain ⟨a, v⟩ := e
    by_cases h : k = a
    · subst h
      simp [List.lookup_cons]
    · have hb : (k == a) = false := beq_eq_false_iff_ne.mpr h
      simp [List.lookup_cons, hb, ih]

theorem lookup_alSet_self {α : Type} (l : List (String × α)) (f : α → α) (k : String) :
    (alSet k f l).lookup k = (l.lookup k).map f := by
  induction l with
  | nil => rfl
  | cons e t ih =>
    obtain ⟨a, v⟩ := e
    by_cases h : a = k
    · subst h
      simp [alSet, List.lookup_cons]
    · have hb : (k == a) = false := beq_eq_false_iff_ne.mpr (fun hk => h hk.symm)
      have hb2 : (a == k) = false := beq_eq_false_iff_ne.mpr h
      simp only [alSet, List.map_cons, hb2, Bool.false_eq_true, if_false, List.lookup_cons, hb]
      exact ih

theorem lookup_alSet_ne {α : Type} (l : List (String × α)) (f : α → α) (k k' : String)
    (h : k' ≠ k) : (alSet k f l).lookup k' = l.lookup k' := by
  induction l with
  | nil => rfl
  | cons e t ih =>
    obtain ⟨a, v⟩ := e
    by_cases he : a = k
    · have hb : (k' == a) = false := beq_eq_false_iff_ne.mpr (fun hk => h (hk.trans he))
      have hb2 : (a == k) = true := beq_iff_eq.mpr he
      simp only [alSet, List.map_cons, hb2, if_true, List.lookup_cons, hb]
      exact ih
    · have hb2 : (a == k) = false := beq_eq_false_iff_ne.mpr he
      by_cases hk : k' = a
      · have hb : (k' == a) = true := beq_iff_eq.mpr hk
        simp only [alSet, List.map_cons, hb2, Bool.false_eq_true, if_false, List.lookup_cons, hb]
      · have hb : (k' == a) = false := beq_eq_false_iff_ne.mpr hk
        simp only [alSet, List.map_cons, hb2, Bool.false_eq_true, if_false, List.lookup_cons, hb]
        exact ih

theorem alInsertIfAbsent_of_present {α : Type} (l : List (String × α)) (k : String) (v : α)
    (h : (l.lookup k).isSome) : alInsertIfAbsent k v l = l := by
  simp [alInsertIfAbsent, h]

theorem lookup_append_left {α : Type} (l₁ l₂ : List (String × α)) (k : String) (v : α)
    (h : l₁.lookup k = some v) : (l₁ ++ l₂).lookup k = some v := by
  induction l₁ with
  | nil => simp [List.lookup] at h
  | cons e t ih =>
    obtain ⟨a, w⟩ := e
    simp only [List.cons_append, List.lookup_cons] at h ⊢
    cases hk : k == a with
    | true => simpa [hk] using h
    | false =>
      simp only [hk] at h ⊢
      exact ih h

theorem lookup_append_none {α : Type} (l₁ l₂ : List (String × α)) (k : String)
    (h : l₁.lookup k = none) : (l₁ ++ l₂).lookup k = l₂.lookup k := by
  induction l₁ with
  | nil => simp
  | cons e t ih =>
    obtain ⟨a, w⟩ := e
    simp only [List.cons_append, List.lookup_cons] at h ⊢
    cases hk : k == a with
    | true => simp [hk] at h
    | false =>
      simp only [hk] at h ⊢
      exact ih h

theorem lookup_alInsertIfAbsent_self {α : Type} (l : List (String × α)) (k : String) (v : α) :
    (alInsertIfAbsent k v l).lookup k = some ((l.lookup k).getD v) := by
  unfold alInsertIfAbsent
  cases h : l.lookup k with
  | some w => simp [h]
  | none =>
    simp only [h, Option.isSome_none, Bool.false_eq_true, if_false, Option.getD_none]
    rw [lookup_append_none l _ k h]
    simp [List.lookup_cons]

theorem lookup_alInsertIfAbsent_ne {α : Type} (l : List (String × α)) (k k' : String) (v : α)
    (h : k' ≠ k) : (alInsertIfAbsent k v l).lookup k' = l.lookup k' := by
  unfold alInsertIfAbsent
  cases hl : (l.lookup k).isSome with
  | true => simp
  | false =>
    simp only [Bool.false_eq_true, if_false]
    cases h2 : l.lookup k' with
    | some w => exact lookup_append_left _ _ _ _ h2
    | none =>
      rw [lookup_append_none _ _ _ h2]
      have hb : (k' == k) = false := beq_eq_false_iff_ne.mpr h
      simp [List.lookup_cons, hb]

theorem lookup_mem {α : Type} {l : List (String × α)} {k : String} {v : α}
    (h : l.lookup k = some v) : (k, v) ∈ l := by
  induction l with
  | nil => simp [List.lookup] at h
  | cons e t ih =>
    obtain ⟨a, w⟩ := e
    simp only [List.lookup_cons] at h
    cases hk : k == a with
    | true =>
      simp only [hk] at h
      injection h with h
      have ha : k = a := beq_iff_eq.mp hk
      subst ha h
      exact List.mem_cons_self _ _
    | false =>
      simp only [hk] at h
      exact List.mem_cons_of_mem _ (ih h)

theorem lookup_eq_of_mem_nodup {α : Type} {l : List (String × α)} {k : String} {v : α}
    (hnd : (l.map Prod.fst).Nodup) (h : (k, v) ∈ l) : l.lookup k = some v := by
  induction l with
  | nil => simp at h
  | cons e t ih =>
    obtain ⟨a, w⟩ := e
    simp only [List.map_cons, List.nodup_cons] at hnd
    rcases List.mem_cons.mp h with h1 | h1
    · injection h1 with h1a h1b
      subst h1a h1b
      simp [List.lookup_cons]
    · have hk : (k == a) = false := by
        refine beq_eq_false_iff_ne.mpr fun hke => hnd.1 ?_
        rw [← hke]
        exact List.mem_map_of_mem Prod.fst h1
      simp only [List.lookup_cons, hk]
      exact ih hnd.2 h1

theorem lookup_none_of_not_mem_keys {α : Type} {l : List (String × α)} {k : String}
    (h : k ∉ l.map Prod.fst) : l.lookup k = none := by
  induction l with
  | nil => rfl
  | cons e t ih =>
    obtain ⟨a, w⟩ := e
    simp only [List.map_cons, List.mem_cons, not_or] at h
    have hk : (k == a) = false := beq_eq_false_iff_ne.mpr h.1
    simp only [List.lookup_cons, hk]
    exact ih h.2


/-! ## Claim C2: end-to-end scenario -/

/-- C2: from a register document with GPIO peripheral `GPIO_NS` containing
`TIMER0_ROUTEEN` at 0x20 (field `CC0PEN` at bit 0) and `TIMER0_CC0ROUTE` at
0x24, and a routing document with module `TIMER0`, selector `TIMER0_CC0`,
route `CC0`, location (0, 5), the serializer emits the parameterized macro for
`TIMER0_CC0` with base 8, enable-presence 1, enable bit 0, route 1, and the
concrete macro `TIMER0_CC0_PA5` invoking it with (0, 5). -/
theorem claim_C2 :
    (c2model.lookup "TIMER0").map PeriphData.base = some 8 ∧
    getSig c2model "TIMER0" "CC0" =
      some { en := some 0, route := some 1, pinout := some [(0, [5])] } ∧
    Emit.macroDef "TIMER0" "CC0" 8 true 0 1 ∈ linesOf (write_header "xg24" c2model) ∧
    Emit.pinDef "TIMER0" "CC0" 0 5 ∈ linesOf (write_header "xg24" c2model) ∧
    renderEmit (Emit.macroDef "TIMER0" "CC0" 8 true 0 1) =
      "#define SILABS_DBUS_TIMER0_CC0(port, pin) SILABS_DBUS(port, pin, 8, 1, 0, 1)" ∧
    renderEmit (Emit.pinDef "TIMER0" "CC0" 0 5) =
      "#define TIMER0_CC0_PA5 SILABS_DBUS_TIMER0_CC0(0, 5)" := by
  decide

/-! ## Claim C7: rename tables -/

/-- The register document of the rename scenario: a `FRC_ROUTEEN` register
with field `CCC0PEN`. -/
def c7doc (off bit : Nat) : List SVDPeripheral :=
  [{ name := "GPIO_NS",
     registers :=
       [{ name := "FRC_ROUTEEN", address_offset := off,
          fields := [{ name := "CCC0PEN", bit_offset := bit }] }] }]

/-- C7: a register document whose GPIO peripheral holds `FRC_ROUTEEN` with
field `CCC0PEN` yields canonical peripheral `PTI` owning signal `CDTI0`
(peripheral renamed via `peripheral_rename_map`, signal renamed via
`signal_rename_map`), and rename lookup defaults to the identity for names
absent from a table. -/
theorem claim_C7 :
    (∀ off bit, parse_svd_doc [] (c7doc off bit) =
      Except.ok [("PTI", { base := off / 4,
                           signals := [("CDTI0", { en := some bit })] })]) ∧
    (∀ tbl n, tbl.lookup n = none → rename tbl n = n) := by
  constructor
  · intro off bit
    rfl
  · intro tbl n h
    simp [rename, h]

/-- Witness for C7 at byte offset 0x1C and bit 3, and at the name `TIMER0`,
which is absent from the peripheral rename table. -/
theorem claim_C7_witness :
    parse_svd_doc [] (c7doc 0x1C 3) =
      Except.ok [("PTI", { base := 7, signals := [("CDTI0", { en := some 3 })] })] ∧
    rename peripheral_rename_map "TIMER0" = "TIMER0" :=
  ⟨claim_C7.1 0x1C 3, claim_C7.2 peripheral_rename_map "TIMER0" (by decide)⟩

/-! ## Claim C1: serialization of a signal without route_offset -/

/-- C1 counterexample: in the model built from `cexSvd` then `cexPt`, signal
`TIMER0`/`CC0` never received a `"route"` key, yet the serializer still emits
the concrete macros `TIMER0_CC0_PB2` and `TIMER0_CC0_PA5` for it (while
emitting one warning), refuting "the serializer emits no macro for that
Signal (neither a parameterized macro nor any concrete macro)". -/
theorem claim_C1_counterexample :
    getSig cexModel "TIMER0" "CC0" =
      some { en := some 0, route := none, pinout := some [(1, [2]), (0, [5])] } ∧
    (warnsOf (write_header "xg24" cexModel)).count (Warn.noRoute "TIMER0" "CC0") = 1 ∧
    Emit.pinDef "TIMER0" "CC0" 1 2 ∈ linesOf (write_header "xg24" cexModel) ∧
    Emit.pinDef "TIMER0" "CC0" 0 5 ∈ linesOf (write_header "xg24" cexModel) ∧
    renderEmit (Emit.pinDef "TIMER0" "CC0" 1 2) =
      "#define TIMER0_CC0_PB2 SILABS_DBUS_TIMER0_CC0(1, 2)" := by
  decide

/-! ## Claim C3: emission order of concrete pin definitions -/

/-- C3 counterexample: for `cexModel`, whose routing document listed port 1
before port 0, the serializer emits the concrete definitions for
`TIMER0`/`CC0` with ports in the order 1, 0 — not in ascending numeric
order. -/
theorem claim_C3_counterexample :
    pinDefsOf (linesOf (write_header "xg24" cexModel)) "TIMER0" "CC0" = [(1, 2), (0, 5)] ∧
    ¬ List.Sorted (· ≤ ·)
        ((pinDefsOf (linesOf (write_header "xg24" cexModel)) "TIMER0" "CC0").map Prod.fst) := by
  decide

/-! ## Totality of the register extractor (claim C9) -/

theorem exOk_iff {α : Type} (r : Except String α) :
    exOk r = true ↔ ∃ a, r = Except.ok a := by
  cases r with
  | ok a => simp [exOk]
  | error e => simp [exOk]

theorem lookup_insertPeriphIfAbsent_self (m : Model) (p : String) (b : Nat) :
    ((insertPeriphIfAbsent m p b).lookup p).isSome = true := by
  rw [insertPeriphIfAbsent, lookup_alInsertIfAbsent_self]
  rfl

theorem lookup_insertSigIfAbsent_self (m : Model) (p s : String) :
    (insertSigIfAbsent m p s).lookup p =
      (m.lookup p).map (fun pd => { pd with signals := alInsertIfAbsent s {} pd.signals }) :=
  lookup_alSet_self m _ p

theorem routeStep_total (m : Model) (reg : SVDRegister)
    (h : pyEndsWith reg.name "ROUTE" = true → (splitFirstUnderscore reg.name).isSome = true) :
    exOk (routeStep m reg) = true := by
  unfold routeStep
  cases hg : pyEndsWith reg.name "ROUTE" with
  | false => simp [hg, exOk]
  | true =>
    cases hsp : splitFirstUnderscore reg.name with
    | none => rw [hsp] at h; simp [hg] at h
    | some ps =>
      simp only [hg, hsp, if_true]
      have hsome := lookup_insertPeriphIfAbsent_self m (rename peripheral_rename_map ps.1)
        (reg.address_offset / 4)
      obtain ⟨pd0, hpd0⟩ := Option.isSome_iff_exists.mp hsome
      rw [lookup_insertSigIfAbsent_self, hpd0]
      rfl

theorem routeenStep_routeStep_total (m : Model) (reg : SVDRegister)
    (h : pyEndsWith reg.name "ROUTE" = true → (splitFirstUnderscore reg.name).isSome = true) :
    exOk (parseSvdStep m reg) = true :=
  routeStep_total (routeenStep m reg) reg h

theorem parse_svd_cons (m : Model) (reg : SVDRegister) (regs : List SVDRegister) :
    parse_svd m (reg :: regs) =
      (parseSvdStep m reg).bind (fun m1 => parse_svd m1 regs) := by
  show List.foldlM parseSvdStep m (reg :: regs) = _
  rw [List.foldlM_cons]
  cases parseSvdStep m reg with
  | ok m1 => rfl
  | error e => rfl

theorem parse_svd_total (regs : List SVDRegister) :
    ∀ m : Model,
      (∀ reg ∈ regs, pyEndsWith reg.name "ROUTE" = true →
        (splitFirstUnderscore reg.name).isSome = true) →
      exOk (parse_svd m regs) = true := by
  induction regs with
  | nil => intro m _; rfl
  | cons reg t ih =>
    intro m h
    rw [parse_svd_cons]
    have h1 : exOk (parseSvdStep m reg) = true :=
      routeenStep_routeStep_total m reg (h reg (List.mem_cons_self _ _))
    obtain ⟨m1, hm1⟩ := (exOk_iff _).mp h1
    rw [hm1]
    exact ih m1 (fun r hr => h r (List.mem_cons_of_mem _ hr))

/-- C9: the register extractor is total exactly under the precondition that
every `ROUTE`-suffixed register name contains an underscore; on a
`ROUTE`-suffixed name with no underscore (`XROUTE`) it fails with an
unpacking error instead of warning or skipping. -/
theorem claim_C9 :
    (∀ (regs : List SVDRegister) (m : Model),
      (∀ reg ∈ regs, pyEndsWith reg.name "ROUTE" = true →
        (splitFirstUnderscore reg.name).isSome = true) →
      exOk (parse_svd m regs) = true) ∧
    pyEndsWith c9reg.name "ROUTE" = true ∧
    splitFirstUnderscore c9reg.name = none ∧
    exErr (parse_svd [] [c9reg]) =
      some ("ValueError: not enough values to unpack: XROUTE") :=
  ⟨fun regs m h => parse_svd_total regs m h, by decide, by decide, by decide⟩

/-- Witness for C9 at the register list of the end-to-end scenario, whose
only `ROUTE`-suffixed name `TIMER0_CC0ROUTE` contains an underscore. -/
theorem claim_C9_witness :
    exOk (parse_svd []
      [{ name := "TIMER0_ROUTEEN", address_offset := 0x20,
         fields := [{ name := "CC0PEN", bit_offset := 0 }] },
       { name := "TIMER0_CC0ROUTE", address_offset := 0x24, fields := [] }]) = true :=
  claim_C9.1 _ [] (by decide)

/-! ## Serializer totality (claim C10) -/

theorem ptProcessSignal_pinout_isSome (doc : PortIoDoc) (p s : String) (sd : SigData) :
    ((ptProcessSignal doc p s sd).1.pinout).isSome = true := by
  unfold ptProcessSignal
  cases h : findSelector doc (ptNames p s).1 (ptNames p s).2.1 with
  | some sel => simp [h]
  | none => simp [h]

theorem parse_pin_tool_pinout_isSome (m : Model) (d : PortIoDoc) :
    ∀ e ∈ (parse_pin_tool m d).1, ∀ se ∈ e.2.signals, se.2.pinout.isSome = true := by
  intro e he se hse
  simp only [parse_pin_tool, List.mem_map] at he
  obtain ⟨e0, _, rfl⟩ := he
  simp only [List.mem_map] at hse
  obtain ⟨se0, _, rfl⟩ := hse
  exact ptProcessSignal_pinout_isSome d e0.1 se0.1 se0.2

theorem emitPinsSigs_ok_iff (p : String) (sigs : List (String × SigData)) :
    exOk (emitPinsSigs p sigs) = true ↔ ∀ se ∈ sigs, se.2.pinout.isSome = true := by
  induction sigs with
  | nil => simp [emitPinsSigs, exOk]
  | cons e t ih =>
    cases hpo : e.2.pinout with
    | none =>
      simp only [emitPinsSigs, hpo, exOk]
      constructor
      · intro h; cases h
      · intro h
        have := h e (List.mem_cons_self _ _)
        rw [hpo] at this
        cases this
    | some po =>
      simp only [emitPinsSigs, hpo]
      cases hr : emitPinsSigs p t with
      | error msg =>
        have hf : exOk (emitPinsSigs p t) = false := by rw [hr]; rfl
        constructor
        · intro h; cases h
        · intro h
          have h2 := ih.mpr (fun se hse => h se (List.mem_cons_of_mem _ hse))
          rw [hf] at h2
          cases h2
      | ok es =>
        have h2 : exOk (emitPinsSigs p t) = true := by rw [hr]; rfl
        simp only [exOk]
        constructor
        · intro _ se hse
          rcases List.mem_cons.mp hse with h3 | h3
          · rw [h3, hpo]; rfl
          · exact ih.mp h2 se h3
        · intro _; trivial

theorem emitPins_ok_iff (m : Model) :
    exOk (emitPins m) = true ↔ ∀ e ∈ m, ∀ se ∈ e.2.signals, se.2.pinout.isSome = true := by
  induction m with
  | nil => simp [emitPins, exOk]
  | cons e t ih =>
    cases hs : emitPinsSigs e.1 e.2.signals with
    | error msg =>
      have h1 : exOk (emitPinsSigs e.1 e.2.signals) = false := by rw [hs]; rfl
      simp only [emitPins, hs]
      constructor
      · intro h; cases h
      · intro h
        have h2 := (emitPinsSigs_ok_iff e.1 e.2.signals).mpr (h e (List.mem_cons_self _ _))
        rw [h1] at h2
        cases h2
    | ok a =>
      have h1 : exOk (emitPinsSigs e.1 e.2.signals) = true := by rw [hs]; rfl
      simp only [emitPins, hs]
      cases ht : emitPins t with
      | error msg =>
        have h2 : exOk (emitPins t) = false := by rw [ht]; rfl
        constructor
        · intro h; cases h
        · intro h
          have h3 := ih.mpr (fun x hx se hse => h x (List.mem_cons_of_mem _ hx) se hse)
          rw [h2] at h3
          cases h3
      | ok b =>
        have h2 : exOk (emitPins t) = true := by rw [ht]; rfl
        simp only [exOk]
        constructor
        · intro _ x hx se hse
          rcases List.mem_cons.mp hx with h3 | h3
          · exact (emitPinsSigs_ok_iff e.1 e.2.signals).mp h1 se (h3 ▸ hse)
          · exact ih.mp h2 x h3 se hse
        · intro _; trivial

theorem write_header_ok_iff (fam : String) (m : Model) :
    exOk (write_header fam m) = true ↔
      ∀ e ∈ m, ∀ se ∈ e.2.signals, se.2.pinout.isSome = true := by
  rw [← emitPins_ok_iff]
  unfold write_header
  cases h : emitPins m with
  | ok b => simp [h, exOk]
  | error msg => simp [h, exOk]

/-- C10: the serializer reads every signal's pinout unconditionally, so it
succeeds exactly when every signal in the model has a `"pinout"` key; the
routing extractor establishes that key for every signal it visits, but a
signal added after the last routing document (here `USART0`/`TX` in
`c10model`) makes the serializer fail with a lookup error. -/
theorem claim_C10 :
    (∀ (fam : String) (m : Model),
      exOk (write_header fam m) = true ↔
        ∀ e ∈ m, ∀ se ∈ e.2.signals, se.2.pinout.isSome = true) ∧
    (∀ (m : Model) (d : PortIoDoc),
      ∀ e ∈ (parse_pin_tool m d).1, ∀ se ∈ e.2.signals, se.2.pinout.isSome = true) ∧
    getSig c10model "USART0" "TX" = some { en := some 1 } ∧
    exErr (write_header "xg24" c10model) = some ("KeyError: pinout of USART0_TX") :=
  ⟨write_header_ok_iff, parse_pin_tool_pinout_isSome, by decide, by decide⟩

/-- Witness for C10: the serializer succeeds on `cexModel`, every signal of
which has a pinout key. -/
theorem claim_C10_witness : exOk (write_header "xg24" cexModel) = true :=
  (claim_C10.1 "xg24" cexModel).mpr (by decide)

/-! ## Claim C8: the ROUTE branch -/

theorem getSig_alSetSig (m : Model) (p s : String) (f : SigData → SigData) :
    getSig (alSet p (fun pd => { pd with signals := alSet s f pd.signals }) m) p s =
      (getSig m p s).map f := by
  unfold getSig
  rw [lookup_alSet_self]
  cases m.lookup p with
  | none => rfl
  | some pd =>
    simp only [Option.map_some', Option.some_bind]
    exact lookup_alSet_self pd.signals f s

theorem getSig_setRouteIfUnset_self (m : Model) (p s : String) (r : Int) :
    getSig (setRouteIfUnset m p s r) p s =
      (getSig m p s).map
        (fun sd => if sd.route.isSome then sd else { sd with route := some r }) :=
  getSig_alSetSig m p s _

theorem getSig_setEnIfUnset_self (m : Model) (p s : String) (b : Nat) :
    getSig (setEnIfUnset m p s b) p s =
      (getSig m p s).map
        (fun sd => if sd.en.isSome then sd else { sd with en := some b }) :=
  getSig_alSetSig m p s _

theorem getSig_insertSigIfAbsent_self (m : Model) (p s : String) :
    getSig (insertSigIfAbsent m p s) p s =
      (m.lookup p).map (fun pd => (pd.signals.lookup s).getD {}) := by
  unfold getSig insertSigIfAbsent
  rw [lookup_alSet_self]
  cases m.lookup p with
  | none => rfl
  | some pd =>
    simp only [Option.map_some', Option.some_bind]
    rw [lookup_alInsertIfAbsent_self]

theorem lookup_base_alSetSig (m : Model) (p : String) (g : List (String × SigData) → List (String × SigData)) :
    ((alSet p (fun pd => { pd with signals := g pd.signals }) m).lookup p).map PeriphData.base =
      (m.lookup p).map PeriphData.base := by
  rw [lookup_alSet_self]
  cases m.lookup p with
  | none => rfl
  | some pd => rfl

/-- C8: for a register whose name ends in `ROUTE` and splits at the first
underscore into `ps`, the extractor canonicalizes the parts into
`routeRegPeriph ps` and `routeRegSignal ps` (the `ROUTE` suffix stripped) and
sets `route_offset` to the register word offset minus the peripheral base,
first-writer-wins; a never-seen peripheral gets base equal to this register's
own word offset, so the signal's route offset is 0. -/
theorem claim_C8 (m : Model) (reg : SVDRegister) (ps : String × String)
    (hr : pyEndsWith reg.name "ROUTE" = true)
    (hsp : splitFirstUnderscore reg.name = some ps) :
    ∃ m', routeStep m reg = Except.ok m' ∧
      (m.lookup (routeRegPeriph ps) = none →
        ((m'.lookup (routeRegPeriph ps)).map PeriphData.base =
            some (reg.address_offset / 4) ∧
          (getSig m' (routeRegPeriph ps) (routeRegSignal ps)).bind SigData.route =
            some 0)) ∧
      (∀ pd0, m.lookup (routeRegPeriph ps) = some pd0 →
        ((m'.lookup (routeRegPeriph ps)).map PeriphData.base = some pd0.base ∧
          ((getSig m (routeRegPeriph ps) (routeRegSignal ps)).bind SigData.route = none →
            (getSig m' (routeRegPeriph ps) (routeRegSignal ps)).bind SigData.route =
              some ((reg.address_offset / 4 : Nat) - (pd0.base : Int))) ∧
          (∀ rt,
            (getSig m (routeRegPeriph ps) (routeRegSignal ps)).bind SigData.route = some rt →
            (getSig m' (routeRegPeriph ps) (routeRegSignal ps)).bind SigData.route =
              some rt))) := by
  unfold routeStep
  rw [hsp]
  simp only [hr, if_true]
  cases hm : m.lookup (routeRegPeriph ps) with
  | none =>
    have h1 : (insertPeriphIfAbsent m (routeRegPeriph ps)
        (reg.address_offset / 4)).lookup (routeRegPeriph ps) =
        some { base := reg.address_offset / 4 } := by
      rw [insertPeriphIfAbsent, lookup_alInsertIfAbsent_self, hm]
      rfl
    have h2 : (insertSigIfAbsent
        (insertPeriphIfAbsent m (routeRegPeriph ps) (reg.address_offset / 4))
        (routeRegPeriph ps) (routeRegSignal ps)).lookup (routeRegPeriph ps) =
        some { base := reg.address_offset / 4,
               signals := [(routeRegSignal ps, {})] } := by
      rw [insertSigIfAbsent, lookup_alSet_self, h1]
      rfl
    rw [show (rename peripheral_rename_map ps.1) = routeRegPeriph ps from rfl,
      show (rename signal_rename_map (pyDropRight ps.2 5)) = routeRegSignal ps from rfl, h2]
    refine ⟨_, rfl, ?_, ?_⟩
    · intro _
      constructor
      · rw [setRouteIfUnset, lookup_base_alSetSig, h2]
        rfl
      · rw [getSig_setRouteIfUnset_self, getSig_insertSigIfAbsent_self, h1]
        simp
    · intro pd0 hpd0
      exact Option.noConfusion hpd0
  | some pd0 =>
    have h1 : insertPeriphIfAbsent m (routeRegPeriph ps) (reg.address_offset / 4) = m := by
      rw [insertPeriphIfAbsent]
      exact alInsertIfAbsent_of_present m _ _ (by rw [hm]; rfl)
    have h2 : (insertSigIfAbsent m (routeRegPeriph ps) (routeRegSignal ps)).lookup
        (routeRegPeriph ps) =
        some { pd0 with
               signals := alInsertIfAbsent (routeRegSignal ps) {} pd0.signals } := by
      rw [insertSigIfAbsent, lookup_alSet_self, hm]
      rfl
    rw [show (rename peripheral_rename_map ps.1) = routeRegPeriph ps from rfl,
      show (rename signal_rename_map (pyDropRight ps.2 5)) = routeRegSignal ps from rfl,
      h1, h2]
    refine ⟨_, rfl, ?_, ?_⟩
    · intro hnone
      exact Option.noConfusion hnone
    · intro pd1 hpd1
      injection hpd1 with hpd1
      subst hpd1
      refine ⟨?_, ?_, ?_⟩
      · rw [setRouteIfUnset, lookup_base_alSetSig, h2]
        rfl
      · intro hroute
        rw [getSig_setRouteIfUnset_self, getSig_insertSigIfAbsent_self, hm]
        have hg : getSig m (routeRegPeriph ps) (routeRegSignal ps) =
            pd0.signals.lookup (routeRegSignal ps) := by
          unfold getSig
          rw [hm]
          rfl
        rw [hg] at hroute
        cases hsd : pd0.signals.lookup (routeRegSignal ps) with
        | none =>
          simp only [hsd, Option.map_some', Option.getD_none]
          rfl
        | some sd =>
          rw [hsd] at hroute
          simp only [Option.some_bind] at hroute
          simp only [hsd, Option.map_some', Option.getD_some, Option.some_bind]
          rw [show sd.route.isSome = false by rw [hroute]; rfl]
          simp
      · intro rt hroute
        rw [getSig_setRouteIfUnset_self, getSig_insertSigIfAbsent_self, hm]
        have hg : getSig m (routeRegPeriph ps) (routeRegSignal ps) =
            pd0.signals.lookup (routeRegSignal ps) := by
          unfold getSig
          rw [hm]
          rfl
        rw [hg] at hroute
        cases hsd : pd0.signals.lookup (routeRegSignal ps) with
        | none => rw [hsd] at hroute; cases hroute
        | some sd =>
          rw [hsd] at hroute
          simp only [Option.some_bind] at hroute
          simp only [hsd, Option.map_some', Option.getD_some, Option.some_bind]
          rw [show sd.route.isSome = true by rw [hroute]; rfl]
          simpa using hroute

/-- Witness for C8 at the register `TIMER0_CC0ROUTE` (offset 0x24) over the
model holding `TIMER0` with base 8: the route offset becomes 9 - 8 = 1. -/
theorem claim_C8_witness :
    ((match routeStep [("TIMER0", { base := 8, signals := [] })]
        { name := "TIMER0_CC0ROUTE", address_offset := 0x24, fields := [] } with
      | Except.ok m' => (getSig m' "TIMER0" "CC0").bind SigData.route
      | Except.error _ => none) = some 1) := by
  obtain ⟨m', hm', _, hsome⟩ := claim_C8 [("TIMER0", { base := 8, signals := [] })]
    { name := "TIMER0_CC0ROUTE", address_offset := 0x24, fields := [] }
    ("TIMER0", "CC0ROUTE") (by decide) (by decide)
  have h1 := hsome { base := 8, signals := [] } rfl
  have h2 := h1.2.1 rfl
  rw [hm']
  exact h2


/-! ## Claim C4: first-writer-wins -/

theorem extends_refl (m : Model) : ModelExtends m m :=
  ⟨fun _ pd h => ⟨pd, h, rfl⟩,
   fun _ _ sd h => ⟨sd, h, fun _ => rfl, fun _ => rfl⟩⟩

theorem extends_trans {m1 m2 m3 : Model} (h12 : ModelExtends m1 m2)
    (h23 : ModelExtends m2 m3) : ModelExtends m1 m3 := by
  constructor
  · intro p pd h
    obtain ⟨pd2, h2, hb2⟩ := h12.1 p pd h
    obtain ⟨pd3, h3, hb3⟩ := h23.1 p pd2 h2
    exact ⟨pd3, h3, hb3.trans hb2⟩
  · intro p s sd h
    obtain ⟨sd2, h2, he2, hr2⟩ := h12.2 p s sd h
    obtain ⟨sd3, h3, he3, hr3⟩ := h23.2 p s sd2 h2
    refine ⟨sd3, h3, ?_, ?_⟩
    · intro he
      rw [he3 (by rw [he2 he]; exact he), he2 he]
    · intro hr
      rw [hr3 (by rw [hr2 hr]; exact hr), hr2 hr]

theorem getSig_alSet_ne_p {g : PeriphData → PeriphData} (m : Model) (p p' s' : String)
    (h : p' ≠ p) : getSig (alSet p g m) p' s' = getSig m p' s' := by
  unfold getSig
  rw [lookup_alSet_ne _ _ _ _ h]

theorem getSig_alSetSig_ne_s {f : SigData → SigData} (m : Model) (p s s' : String)
    (h : s' ≠ s) :
    getSig (alSet p (fun pd => { pd with signals := alSet s f pd.signals }) m) p s' =
      getSig m p s' := by
  unfold getSig
  rw [lookup_alSet_self]
  cases m.lookup p with
  | none => rfl
  | some pd =>
    simp only [Option.map_some', Option.some_bind]
    exact lookup_alSet_ne _ _ _ _ h

theorem extends_alSetSig (m : Model) (p s : String) (f : SigData → SigData)
    (hf : ∀ sd, (sd.en.isSome = true → (f sd).en = sd.en) ∧
      (sd.route.isSome = true → (f sd).route = sd.route)) :
    ModelExtends m (alSet p (fun pd => { pd with signals := alSet s f pd.signals }) m) := by
  constructor
  · intro p' pd hp'
    by_cases hpp : p' = p
    · subst hpp
      rw [lookup_alSet_self, hp']
      exact ⟨_, rfl, rfl⟩
    · rw [lookup_alSet_ne _ _ _ _ hpp, hp']
      exact ⟨pd, rfl, rfl⟩
  · intro p' s' sd hsd
    by_cases hpp : p' = p
    · subst hpp
      by_cases hss : s' = s
      · subst hss
        rw [getSig_alSetSig, hsd]
        exact ⟨f sd, rfl, (hf sd).1, (hf sd).2⟩
      · rw [getSig_alSetSig_ne_s _ _ _ _ hss, hsd]
        exact ⟨sd, rfl, fun _ => rfl, fun _ => rfl⟩
    · rw [getSig_alSet_ne_p _ _ _ _ hpp, hsd]
      exact ⟨sd, rfl, fun _ => rfl, fun _ => rfl⟩

theorem extends_setEnIfUnset (m : Model) (p s : String) (b : Nat) :
    ModelExtends m (setEnIfUnset m p s b) := by
  apply extends_alSetSig
  intro sd
  constructor
  · intro he
    simp [he]
  · intro _
    by_cases he : sd.en.isSome = true <;> simp [he]

theorem extends_setRouteIfUnset (m : Model) (p s : String) (r : Int) :
    ModelExtends m (setRouteIfUnset m p s r) := by
  apply extends_alSetSig
  intro sd
  constructor
  · intro _
    by_cases hr : sd.route.isSome = true <;> simp [hr]
  · intro hr
    simp [hr]

theorem lookup_alInsertIfAbsent_of_some {α : Type} (l : List (String × α)) (k k' : String)
    (v w : α) (h : l.lookup k' = some w) : (alInsertIfAbsent k v l).lookup k' = some w := by
  unfold alInsertIfAbsent
  cases hl : (l.lookup k).isSome with
  | true => simpa using h
  | false =>
    simp only [hl, Bool.false_eq_true, if_false]
    exact lookup_append_left _ _ _ _ h

theorem extends_insertSigIfAbsent (m : Model) (p s : String) :
    ModelExtends m (insertSigIfAbsent m p s) := by
  constructor
  · intro p' pd hp'
    by_cases hpp : p' = p
    · subst hpp
      rw [insertSigIfAbsent, lookup_alSet_self, hp']
      exact ⟨_, rfl, rfl⟩
    · rw [insertSigIfAbsent, lookup_alSet_ne _ _ _ _ hpp, hp']
      exact ⟨pd, rfl, rfl⟩
  · intro p' s' sd hsd
    by_cases hpp : p' = p
    · rw [hpp] at hsd ⊢
      unfold getSig at hsd ⊢
      rw [insertSigIfAbsent, lookup_alSet_self]
      cases hp : m.lookup p with
      | none => rw [hp] at hsd; cases hsd
      | some pd =>
        rw [hp] at hsd
        simp only [Option.some_bind] at hsd
        simp only [Option.map_some', Option.some_bind]
        exact ⟨sd, lookup_alInsertIfAbsent_of_some _ _ _ _ _ hsd,
          fun _ => rfl, fun _ => rfl⟩
    · rw [insertSigIfAbsent, getSig_alSet_ne_p _ _ _ _ hpp, hsd]
      exact ⟨sd, rfl, fun _ => rfl, fun _ => rfl⟩

theorem extends_insertPeriphIfAbsent (m : Model) (p : String) (b : Nat) :
    ModelExtends m (insertPeriphIfAbsent m p b) := by
  unfold insertPeriphIfAbsent alInsertIfAbsent
  cases h : (m.lookup p).isSome with
  | true =>
    simp only [h, if_true]
    exact extends_refl m
  | false =>
    simp only [h, Bool.false_eq_true, if_false]
    constructor
    · intro p' pd hp'
      exact ⟨pd, lookup_append_left _ _ _ _ hp', rfl⟩
    · intro p' s' sd hsd
      unfold getSig at hsd ⊢
      cases hp' : m.lookup p' with
      | none => rw [hp'] at hsd; cases hsd
      | some pd =>
        rw [hp'] at hsd
        rw [lookup_append_left _ _ _ _ hp']
        exact ⟨sd, hsd, fun _ => rfl, fun _ => rfl⟩

theorem extends_enFieldStep (q : String) (acc : Model) (field : SVDField) :
    ModelExtends acc (enFieldStep q acc field) := by
  unfold enFieldStep
  cases h : pyEndsWith field.name "PEN" with
  | false => simp only [h, Bool.false_eq_true, if_false]; exact extends_refl acc
  | true =>
    simp only [h, if_true]
    exact extends_trans (extends_insertSigIfAbsent acc q _) (extends_setEnIfUnset _ q _ _)

theorem extends_enFieldFold (q : String) (fs : List SVDField) :
    ∀ acc : Model, ModelExtends acc (fs.foldl (enFieldStep q) acc) := by
  induction fs with
  | nil => intro acc; exact extends_refl acc
  | cons f t ih =>
    intro acc
    rw [List.foldl_cons]
    exact extends_trans (extends_enFieldStep q acc f) (ih (enFieldStep q acc f))

theorem extends_routeenStep (m : Model) (reg : SVDRegister) :
    ModelExtends m (routeenStep m reg) := by
  unfold routeenStep
  cases h : pyEndsWith reg.name "_ROUTEEN" with
  | false => simp only [h, Bool.false_eq_true, if_false]; exact extends_refl m
  | true =>
    simp only [h, if_true]
    exact extends_trans (extends_insertPeriphIfAbsent m _ _) (extends_enFieldFold _ _ _)

theorem extends_routeStep {m m' : Model} {reg : SVDRegister}
    (hok : routeStep m reg = Except.ok m') : ModelExtends m m' := by
  unfold routeStep at hok
  split at hok
  · split at hok
    · cases hok
    · simp only [] at hok
      split at hok
      · cases hok
      · injection hok with hok
        rw [← hok]
        exact extends_trans (extends_insertPeriphIfAbsent m _ _)
          (extends_trans (extends_insertSigIfAbsent _ _ _) (extends_setRouteIfUnset _ _ _ _))
  · injection hok with hok
    rw [← hok]
    exact extends_refl m

theorem extends_parseSvdStep {m m' : Model} {reg : SVDRegister}
    (hok : parseSvdStep m reg = Except.ok m') : ModelExtends m m' :=
  extends_trans (extends_routeenStep m reg) (extends_routeStep hok)

theorem extends_parse_svd {regs : List SVDRegister} :
    ∀ {m m' : Model}, parse_svd m regs = Except.ok m' → ModelExtends m m' := by
  induction regs with
  | nil =>
    intro m m' h
    injection h with h
    rw [← h]
    exact extends_refl m
  | cons reg t ih =>
    intro m m' h
    rw [parse_svd_cons] at h
    cases hs : parseSvdStep m reg with
    | error e => rw [hs] at h; cases h
    | ok m1 =>
      rw [hs] at h
      simp only [Except.bind] at h
      exact extends_trans (extends_parseSvdStep hs) (ih h)

theorem parse_svd_docs_cons (m : Model) (d : List SVDRegister)
    (docs : List (List SVDRegister)) :
    parse_svd_docs m (d :: docs) =
      (parse_svd m d).bind (fun m1 => parse_svd_docs m1 docs) := by
  show List.foldlM parse_svd m (d :: docs) = _
  rw [List.foldlM_cons]
  cases parse_svd m d with
  | ok m1 => rfl
  | error e => rfl

theorem extends_parse_svd_docs {docs : List (List SVDRegister)} :
    ∀ {m m' : Model}, parse_svd_docs m docs = Except.ok m' → ModelExtends m m' := by
  induction docs with
  | nil =>
    intro m m' h
    injection h with h
    rw [← h]
    exact extends_refl m
  | cons d t ih =>
    intro m m' h
    rw [parse_svd_docs_cons] at h
    cases hs : parse_svd m d with
    | error e => rw [hs] at h; cases h
    | ok m1 =>
      rw [hs] at h
      simp only [Except.bind] at h
      exact extends_trans (extends_parse_svd hs) (ih h)


theorem fold_enFieldStep_lookup_ne (q p : String) (h : p ≠ q) (fs : List SVDField) :
    ∀ acc : Model, ((fs.foldl (enFieldStep q) acc).lookup p) = acc.lookup p := by
  induction fs with
  | nil => intro acc; rfl
  | cons f t ih =>
    intro acc
    rw [List.foldl_cons, ih]
    unfold enFieldStep
    cases hf : pyEndsWith f.name "PEN" with
    | false => rfl
    | true =>
      simp only [if_true]
      rw [setEnIfUnset, lookup_alSet_ne _ _ _ _ h, insertSigIfAbsent,
        lookup_alSet_ne _ _ _ _ h]

theorem routeenStep_not_mention_lookup (m : Model) (reg : SVDRegister) (p : String)
    (hno : (pyEndsWith reg.name "_ROUTEEN" &&
      (rename peripheral_rename_map (pyDropRight reg.name 8) == p)) = false) :
    (routeenStep m reg).lookup p = m.lookup p := by
  unfold routeenStep
  cases hg : pyEndsWith reg.name "_ROUTEEN" with
  | false => rfl
  | true =>
    simp only [if_true]
    rw [hg] at hno
    simp only [Bool.true_and] at hno
    have hne : p ≠ rename peripheral_rename_map (pyDropRight reg.name 8) := by
      intro he
      rw [he] at hno
      simp at hno
    rw [fold_enFieldStep_lookup_ne _ _ hne, insertPeriphIfAbsent,
      lookup_alInsertIfAbsent_ne _ _ _ _ hne]

theorem routeenStep_mention_base (m : Model) (reg : SVDRegister) (p : String)
    (hyes : (pyEndsWith reg.name "_ROUTEEN" &&
      (rename peripheral_rename_map (pyDropRight reg.name 8) == p)) = true)
    (hnone : m.lookup p = none) :
    ∃ pd, (routeenStep m reg).lookup p = some pd ∧ pd.base = reg.address_offset / 4 := by
  rw [Bool.and_eq_true] at hyes
  have hren : rename peripheral_rename_map (pyDropRight reg.name 8) = p :=
    beq_iff_eq.mp hyes.2
  unfold routeenStep
  rw [hyes.1]
  simp only [if_true]
  rw [hren]
  have h1 : (insertPeriphIfAbsent m p (reg.address_offset / 4)).lookup p =
      some { base := reg.address_offset / 4 } := by
    rw [insertPeriphIfAbsent, lookup_alInsertIfAbsent_self, hnone]
    rfl
  obtain ⟨pd', hpd', hb'⟩ := (extends_enFieldFold p reg.fields _).1 p _ h1
  exact ⟨pd', hpd', hb'⟩

theorem routeStep_not_mention_lookup {m m' : Model} {reg : SVDRegister} (p : String)
    (hno : (pyEndsWith reg.name "ROUTE" &&
      (match splitFirstUnderscore reg.name with
       | some ps => rename peripheral_rename_map ps.1 == p
       | none => false)) = false)
    (hok : routeStep m reg = Except.ok m') :
    m'.lookup p = m.lookup p := by
  unfold routeStep at hok
  split at hok
  · rename_i hg
    rw [hg] at hno
    simp only [Bool.true_and] at hno
    split at hok
    · cases hok
    · rename_i ps hsp
      rw [hsp] at hno
      have hne : p ≠ rename peripheral_rename_map ps.1 := by
        intro he
        rw [he] at hno
        simp at hno
      simp only [] at hok
      split at hok
      · cases hok
      · injection hok with hok
        rw [← hok]
        rw [setRouteIfUnset, lookup_alSet_ne _ _ _ _ hne, insertSigIfAbsent,
          lookup_alSet_ne _ _ _ _ hne, insertPeriphIfAbsent,
          lookup_alInsertIfAbsent_ne _ _ _ _ hne]
  · injection hok with hok
    rw [← hok]

theorem routeStep_mention_base {m : Model} {reg : SVDRegister} {p : String}
    {ps : String × String}
    (hg : pyEndsWith reg.name "ROUTE" = true)
    (hsp : splitFirstUnderscore reg.name = some ps)
    (hren : rename peripheral_rename_map ps.1 = p)
    (hnone : m.lookup p = none) :
    ∃ m', routeStep m reg = Except.ok m' ∧
      ∃ pd, m'.lookup p = some pd ∧ pd.base = reg.address_offset / 4 := by
  unfold routeStep
  rw [hsp]
  simp only [hg, if_true]
  rw [hren]
  have h1 : (insertPeriphIfAbsent m p (reg.address_offset / 4)).lookup p =
      some { base := reg.address_offset / 4 } := by
    rw [insertPeriphIfAbsent, lookup_alInsertIfAbsent_self, hnone]
    rfl
  have h2 : (insertSigIfAbsent (insertPeriphIfAbsent m p (reg.address_offset / 4)) p
      (rename signal_rename_map (pyDropRight ps.2 5))).lookup p =
      some { base := reg.address_offset / 4,
             signals := [(rename signal_rename_map (pyDropRight ps.2 5), {})] } := by
    rw [insertSigIfAbsent, lookup_alSet_self, h1]
    rfl
  rw [h2]
  refine ⟨_, rfl, ?_⟩
  rw [setRouteIfUnset, lookup_alSet_self, h2]
  exact ⟨_, rfl, rfl⟩


theorem parseSvdStep_absent {m m1 : Model} {reg : SVDRegister} {p : String}
    (hnone : m.lookup p = none) (hok : parseSvdStep m reg = Except.ok m1) :
    (regMentions p reg = true →
      ∃ pd, m1.lookup p = some pd ∧ pd.base = reg.address_offset / 4) ∧
    (regMentions p reg = false → m1.lookup p = none) := by
  unfold parseSvdStep at hok
  cases ha : pyEndsWith reg.name "_ROUTEEN" &&
      (rename peripheral_rename_map (pyDropRight reg.name 8) == p) with
  | true =>
    obtain ⟨pd, hpd, hbase⟩ := routeenStep_mention_base m reg p ha hnone
    obtain ⟨pd', hpd', hbase'⟩ := (extends_routeStep hok).1 p pd hpd
    constructor
    · intro _
      exact ⟨pd', hpd', hbase'.trans hbase⟩
    · intro hmen
      unfold regMentions at hmen
      rw [ha] at hmen
      simp at hmen
  | false =>
    have h1 : (routeenStep m reg).lookup p = m.lookup p :=
      routeenStep_not_mention_lookup m reg p ha
    cases hb : pyEndsWith reg.name "ROUTE" with
    | false =>
      have hno : (pyEndsWith reg.name "ROUTE" &&
          (match splitFirstUnderscore reg.name with
           | some ps => rename peripheral_rename_map ps.1 == p
           | none => false)) = false := by
        rw [hb]
        rfl
      have h2 := routeStep_not_mention_lookup p hno hok
      constructor
      · intro hmen
        unfold regMentions at hmen
        rw [ha, hno] at hmen
        cases hmen
      · intro _
        rw [h2, h1, hnone]
    | true =>
      cases hsp : splitFirstUnderscore reg.name with
      | none =>
        exfalso
        unfold routeStep at hok
        rw [hsp] at hok
        simp only [hb, if_true] at hok
        cases hok
      | some ps =>
        cases hren : rename peripheral_rename_map ps.1 == p with
        | true =>
          have hreneq : rename peripheral_rename_map ps.1 = p := beq_iff_eq.mp hren
          obtain ⟨m', hm', pd, hpd, hbase⟩ :=
            routeStep_mention_base hb hsp hreneq (h1.trans hnone)
          rw [hok] at hm'
          injection hm' with hm'
          subst hm'
          constructor
          · intro _
            exact ⟨pd, hpd, hbase⟩
          · intro hmen
            unfold regMentions at hmen
            simp only [ha, hb, hsp, hren, Bool.false_or, Bool.true_and] at hmen
            cases hmen
        | false =>
          have hno : (pyEndsWith reg.name "ROUTE" &&
              (match splitFirstUnderscore reg.name with
               | some ps => rename peripheral_rename_map ps.1 == p
               | none => false)) = false := by
            rw [hb, hsp]
            simp only [hren, Bool.true_and]
          have h2 := routeStep_not_mention_lookup p hno hok
          constructor
          · intro hmen
            unfold regMentions at hmen
            simp only [ha, hb, hsp, hren, Bool.false_or, Bool.true_and] at hmen
            cases hmen
          · intro _
            rw [h2, h1, hnone]


theorem parse_svd_absent {regs : List SVDRegister} :
    ∀ {m m' : Model} {p : String}, parse_svd m regs = Except.ok m' → m.lookup p = none →
      (match regs.find? (regMentions p) with
       | some r => ∃ pd, m'.lookup p = some pd ∧ pd.base = r.address_offset / 4
       | none => m'.lookup p = none) := by
  induction regs with
  | nil =>
    intro m m' p hok hnone
    injection hok with hok
    subst hok
    simpa using hnone
  | cons reg t ih =>
    intro m m' p hok hnone
    rw [parse_svd_cons] at hok
    cases hs : parseSvdStep m reg with
    | error e => rw [hs] at hok; cases hok
    | ok m1 =>
      rw [hs] at hok
      simp only [Except.bind] at hok
      cases hmen : regMentions p reg with
      | true =>
        rw [List.find?_cons_of_pos _ hmen]
        obtain ⟨pd, hpd, hbase⟩ := (parseSvdStep_absent hnone hs).1 hmen
        obtain ⟨pd', hpd', hbase'⟩ := (extends_parse_svd hok).1 p pd hpd
        exact ⟨pd', hpd', hbase'.trans hbase⟩
      | false =>
        rw [List.find?_cons_of_neg _ (by simp [hmen])]
        exact ih hok ((parseSvdStep_absent hnone hs).2 hmen)

theorem parse_svd_append (l1 l2 : List SVDRegister) (m : Model) :
    parse_svd m (l1 ++ l2) = (parse_svd m l1).bind (fun m1 => parse_svd m1 l2) := by
  induction l1 generalizing m with
  | nil => rfl
  | cons reg t ih =>
    rw [List.cons_append, parse_svd_cons, parse_svd_cons]
    cases parseSvdStep m reg with
    | error e => rfl
    | ok m1 =>
      simp only [Except.bind]
      exact ih m1

theorem parse_svd_docs_eq_join (docs : List (List SVDRegister)) :
    ∀ m : Model, parse_svd_docs m docs = parse_svd m docs.flatten := by
  induction docs with
  | nil => intro m; rfl
  | cons d t ih =>
    intro m
    rw [parse_svd_docs_cons]
    have hj : (d :: t).flatten = d ++ t.flatten := rfl
    rw [hj, parse_svd_append]
    cases parse_svd m d with
    | error e => rfl
    | ok m1 =>
      simp only [Except.bind]
      exact ih m1

/-- C4: across any sequence of register documents, an existing peripheral's
base is never changed, an existing signal's `enable_bit` and `route_offset`
are never overwritten once set (first-writer-wins), and a peripheral absent
from the starting model ends with base equal to the word offset of the first
register (of either suffix kind) that mentions it — or stays absent if no
register ever mentions it. -/
theorem claim_C4 (docs : List (List SVDRegister)) (m m' : Model)
    (hok : parse_svd_docs m docs = Except.ok m') :
    (∀ p pd, m.lookup p = some pd → (m'.lookup p).map PeriphData.base = some pd.base) ∧
    (∀ p s sd, getSig m p s = some sd →
      (sd.en.isSome = true → (getSig m' p s).bind SigData.en = sd.en) ∧
      (sd.route.isSome = true → (getSig m' p s).bind SigData.route = sd.route)) ∧
    (∀ p, m.lookup p = none →
      (match (docs.flatten).find? (regMentions p) with
       | some r => (m'.lookup p).map PeriphData.base = some (r.address_offset / 4)
       | none => m'.lookup p = none)) := by
  have hext := extends_parse_svd_docs hok
  refine ⟨?_, ?_, ?_⟩
  · intro p pd hp
    obtain ⟨pd', hp', hb⟩ := hext.1 p pd hp
    rw [hp', Option.map_some', hb]
  · intro p s sd hsd
    obtain ⟨sd', hsd', he, hr⟩ := hext.2 p s sd hsd
    constructor
    · intro hen
      rw [hsd', Option.some_bind, he hen]
    · intro hrt
      rw [hsd', Option.some_bind, hr hrt]
  · intro p hnone
    rw [parse_svd_docs_eq_join] at hok
    have habs := parse_svd_absent hok hnone
    cases hfind : (docs.flatten).find? (regMentions p) with
    | some r =>
      rw [hfind] at habs
      obtain ⟨pd, hpd, hb⟩ := habs
      rw [hpd, Option.map_some', hb]
    | none =>
      rw [hfind] at habs
      exact habs

/-- Witness for C4: over the two documents of `c4docs` (the second repeating
`TIMER0_ROUTEEN`), peripheral `TIMER0` gets base 8 from the first register
mentioning it. -/
theorem claim_C4_witness :
    (match parse_svd_docs [] c4docs with
     | Except.ok m' => (m'.lookup "TIMER0").map PeriphData.base
     | Except.error _ => none) = some 8 := by
  cases hok : parse_svd_docs [] c4docs with
  | error e =>
    exfalso
    have h0 : exOk (parse_svd_docs [] c4docs) = true := by decide
    rw [hok] at h0
    cases h0
  | ok m' =>
    have h3 := (claim_C4 c4docs [] m' hok).2.2 "TIMER0" rfl
    have hfind : (c4docs.flatten).find? (regMentions "TIMER0") =
        some { name := "TIMER0_ROUTEEN", address_offset := 0x20,
               fields := [{ name := "CC0PEN", bit_offset := 0 }] } := by decide
    rw [hfind] at h3
    exact h3


/-! ## Claim C5: union across variants, order independence -/

theorem mem_pySetAdd (s : List Nat) (x y : Nat) :
    y ∈ pySetAdd s x ↔ y = x ∨ y ∈ s := by
  unfold pySetAdd
  cases h : s.contains x with
  | true =>
    simp only [if_true]
    constructor
    · exact fun hy => Or.inr hy
    · intro hy
      rcases hy with hy | hy
      · subst hy
        simpa using h
      · exact hy
  | false =>
    simp only [Bool.false_eq_true, if_false, List.mem_append, List.mem_singleton]
    exact Or.comm

theorem locSet_cons (e : Nat × List Nat) (t : List (Nat × List Nat)) :
    locSet (e :: t) = (e.2.map (fun pin => (e.1, pin))).toFinset ∪ locSet t := rfl

theorem locSet_addLoc (po : List (Nat × List Nat)) (port pin : Nat) :
    locSet (addLoc po port pin) = insert (port, pin) (locSet po) := by
  induction po with
  | nil =>
    apply Finset.ext
    intro x
    simp [addLoc, locSet]
  | cons e t ih =>
    unfold addLoc
    cases h : e.1 == port with
    | true =>
      rw [if_pos rfl]
      have hp : e.1 = port := beq_iff_eq.mp h
      subst hp
      apply Finset.ext
      intro x
      rw [locSet_cons, locSet_cons]
      simp only [Finset.mem_insert, Finset.mem_union, List.mem_toFinset, List.mem_map]
      constructor
      · rintro (⟨pin0, hpin0, rfl⟩ | hx)
        · rcases (mem_pySetAdd e.2 pin pin0).mp hpin0 with h0 | h0
          · subst h0
            exact Or.inl rfl
          · exact Or.inr (Or.inl ⟨pin0, h0, rfl⟩)
        · exact Or.inr (Or.inr hx)
      · rintro (rfl | ⟨pin0, hpin0, rfl⟩ | hx)
        · exact Or.inl ⟨pin, (mem_pySetAdd e.2 pin pin).mpr (Or.inl rfl), rfl⟩
        · exact Or.inl ⟨pin0, (mem_pySetAdd e.2 pin pin0).mpr (Or.inr hpin0), rfl⟩
        · exact Or.inr hx
    | false =>
      rw [if_neg (by simp), locSet_cons, locSet_cons, ih, Finset.union_insert]

theorem addLocs_nil (po : List (Nat × List Nat)) : addLocs po [] = po := rfl

theorem locSet_addLocs (locs : List PTLocation) :
    ∀ po, locSet (addLocs po locs) = locSet po ∪ locsFinset locs := by
  induction locs with
  | nil =>
    intro po
    simp [addLocs_nil, locsFinset]
  | cons l t ih =>
    intro po
    have h1 : addLocs po (l :: t) = addLocs (addLoc po l.portBankIndex l.pinIndex) t := rfl
    rw [h1, ih, locSet_addLoc]
    show insert (l.portBankIndex, l.pinIndex) (locSet po) ∪ locsFinset t =
      locSet po ∪ insert (l.portBankIndex, l.pinIndex) (locsFinset t)
    rw [Finset.insert_union, Finset.union_insert]

theorem ptProcessSignal_pinout (d : PortIoDoc) (p s : String) (sd : SigData) :
    (ptProcessSignal d p s sd).1.pinout =
      some (addLocs (sd.pinout.getD []) (ptContrib d p s)) := by
  unfold ptProcessSignal ptContrib
  cases h : findSelector d (ptNames p s).1 (ptNames p s).2.1 with
  | some sel => simp [h]
  | none => simp [h, addLocs_nil]

theorem ptProcessSignal_en (d : PortIoDoc) (p s : String) (sd : SigData) :
    (ptProcessSignal d p s sd).1.en = sd.en := by
  unfold ptProcessSignal
  cases h : findSelector d (ptNames p s).1 (ptNames p s).2.1 with
  | some sel => simp [h]
  | none => simp [h]

theorem ptProcessSignal_route (d : PortIoDoc) (p s : String) (sd : SigData) :
    (ptProcessSignal d p s sd).1.route = sd.route := by
  unfold ptProcessSignal
  cases h : findSelector d (ptNames p s).1 (ptNames p s).2.1 with
  | some sel => simp [h]
  | none => simp [h]

theorem getSig_parse_pin_tool (m : Model) (d : PortIoDoc) (p s : String) :
    getSig (parse_pin_tool m d).1 p s =
      (getSig m p s).map (fun sd => (ptProcessSignal d p s sd).1) := by
  unfold getSig parse_pin_tool
  rw [lookup_map_dep m
    (fun q pd => { pd with
                   signals := pd.signals.map
                     (fun se => (se.1, (ptProcessSignal d q se.1 se.2).1)) }) p]
  cases hp : m.lookup p with
  | none => rfl
  | some pd =>
    simp only [Option.map_some', Option.some_bind]
    exact lookup_map_dep pd.signals (fun s1 sd => (ptProcessSignal d p s1 sd).1) s


theorem getSig_processPinDocs (ds : List PortIoDoc) :
    ∀ (m : Model) (p s : String),
      getSig (processPinDocs m ds) p s =
        (getSig m p s).map
          (fun sd => ds.foldl (fun x d => (ptProcessSignal d p s x).1) sd) := by
  induction ds with
  | nil =>
    intro m p s
    cases h : getSig m p s <;> simp [processPinDocs, h]
  | cons d t ih =>
    intro m p s
    have h1 : processPinDocs m (d :: t) = processPinDocs (parse_pin_tool m d).1 t := rfl
    rw [h1, ih, getSig_parse_pin_tool]
    cases h : getSig m p s <;> simp [h]

theorem locSet_fold_docs (ds : List PortIoDoc) (p s : String) :
    ∀ sd : SigData,
      locSet (((ds.foldl (fun x d => (ptProcessSignal d p s x).1) sd).pinout).getD []) =
        locSet (sd.pinout.getD []) ∪
          ds.foldr (fun d acc => contribSet d p s ∪ acc) ∅ := by
  induction ds with
  | nil =>
    intro sd
    simp
  | cons d t ih =>
    intro sd
    rw [List.foldl_cons, ih, List.foldr_cons, ptProcessSignal_pinout, Option.getD_some,
      locSet_addLocs]
    show locSet (sd.pinout.getD []) ∪ contribSet d p s ∪ _ = _
    rw [Finset.union_assoc]

theorem mem_foldrUnion (ds : List PortIoDoc) (p s : String) (x : Nat × Nat) :
    x ∈ ds.foldr (fun d acc => contribSet d p s ∪ acc) ∅ ↔
      ∃ d ∈ ds, x ∈ contribSet d p s := by
  induction ds with
  | nil => simp
  | cons d t ih =>
    rw [List.foldr_cons]
    simp only [Finset.mem_union, ih, List.mem_cons]
    constructor
    · rintro (hx | ⟨d0, hd0, hx⟩)
      · exact ⟨d, Or.inl rfl, hx⟩
      · exact ⟨d0, Or.inr hd0, hx⟩
    · rintro ⟨d0, hd0 | hd0, hx⟩
      · subst hd0
        exact Or.inl hx
      · exact Or.inr ⟨d0, hd0, hx⟩

theorem foldrUnion_perm {ds ds' : List PortIoDoc} (h : ds.Perm ds') (p s : String) :
    ds.foldr (fun d acc => contribSet d p s ∪ acc) ∅ =
      ds'.foldr (fun d acc => contribSet d p s ∪ acc) ∅ := by
  apply Finset.ext
  intro x
  rw [mem_foldrUnion, mem_foldrUnion]
  constructor
  · rintro ⟨d, hd, hx⟩
    exact ⟨d, h.mem_iff.mp hd, hx⟩
  · rintro ⟨d, hd, hx⟩
    exact ⟨d, h.mem_iff.mpr hd, hx⟩

/-- C5: for a fixed register model, a signal's final pinout location set after
the routing extractor has processed a list of documents is the set of
locations it already had united with the union of every document's
contribution; processing the documents in any permuted order yields the same
final sets; in particular variants contributing (0,5) and (1,2) aggregate to
both locations. -/
theorem claim_C5 :
    (∀ (m : Model) (ds : List PortIoDoc) (p s : String) (sd : SigData),
      getSig m p s = some sd →
      sigPinSet (processPinDocs m ds) p s =
        some (locSet (sd.pinout.getD []) ∪
          ds.foldr (fun d acc => contribSet d p s ∪ acc) ∅)) ∧
    (∀ (m : Model) (ds ds' : List PortIoDoc) (p s : String), ds.Perm ds' →
      sigPinSet (processPinDocs m ds) p s = sigPinSet (processPinDocs m ds') p s) ∧
    sigPinSet (processPinDocs c5model [c5docA, c5docB]) "TIMER0" "CC0" =
      some {(0, 5), (1, 2)} := by
  refine ⟨?_, ?_, ?_⟩
  · intro m ds p s sd hsd
    unfold sigPinSet
    rw [getSig_processPinDocs, hsd, Option.map_some', Option.map_some',
      locSet_fold_docs]
  · intro m ds ds' p s hperm
    unfold sigPinSet
    rw [getSig_processPinDocs, getSig_processPinDocs]
    cases h : getSig m p s with
    | none => rfl
    | some sd =>
      simp only [Option.map_some']
      rw [locSet_fold_docs, locSet_fold_docs, foldrUnion_perm hperm]
  · decide

/-- Witness for C5: swapping the two variant documents leaves the final pinout
set of `TIMER0`/`CC0` unchanged. -/
theorem claim_C5_witness :
    sigPinSet (processPinDocs c5model [c5docA, c5docB]) "TIMER0" "CC0" =
      sigPinSet (processPinDocs c5model [c5docB, c5docA]) "TIMER0" "CC0" :=
  claim_C5.2.1 c5model [c5docA, c5docB] [c5docB, c5docA] "TIMER0" "CC0"
    (List.Perm.swap c5docB c5docA [])


/-! ## Claim C6: the routing extractor only enriches pinouts -/

theorem flatMap_congr_left {α β : Type} {l : List α} {f g : α → List β}
    (h : ∀ a ∈ l, f a = g a) : l.flatMap f = l.flatMap g := by
  induction l with
  | nil => rfl
  | cons a t ih =>
    rw [List.flatMap_cons, List.flatMap_cons, h a (List.mem_cons_self _ _),
      ih (fun x hx => h x (List.mem_cons_of_mem _ hx))]

theorem findSelector_append_extra (mods : List PTModule) (extra : PTModule)
    (mn sn : String) (h : mn ≠ extra.name) :
    findSelector { modules := mods ++ [extra] } mn sn =
      findSelector { modules := mods } mn sn := by
  unfold findSelector
  have hf : (mods ++ [extra]).filter (fun md => md.name == mn) =
      mods.filter (fun md => md.name == mn) := by
    rw [List.filter_append]
    have hx : (extra.name == mn) = false :=
      beq_eq_false_iff_ne.mpr (fun he => h he.symm)
    simp [List.filter, hx]
  rw [hf]

/-- C6: the routing extractor never adds or removes peripherals or signals,
never changes a base, an `enable_bit` or a `route_offset`, and only lets
pinout location sets grow; and a routing-document module whose name matches
no lookup name computed from the model is invisible: dropping it does not
change the result at all. -/
theorem claim_C6 :
    (∀ (m : Model) (d : PortIoDoc),
      ((parse_pin_tool m d).1.map Prod.fst = m.map Prod.fst) ∧
      (∀ p, ((parse_pin_tool m d).1.lookup p).map PeriphData.base =
        (m.lookup p).map PeriphData.base) ∧
      (∀ p, ((parse_pin_tool m d).1.lookup p).map (fun pd => pd.signals.map Prod.fst) =
        (m.lookup p).map (fun pd => pd.signals.map Prod.fst)) ∧
      (∀ p s, (getSig (parse_pin_tool m d).1 p s).map SigData.en =
        (getSig m p s).map SigData.en) ∧
      (∀ p s, (getSig (parse_pin_tool m d).1 p s).map SigData.route =
        (getSig m p s).map SigData.route) ∧
      (∀ p s, (sigPinSet m p s).getD ∅ ⊆ (sigPinSet (parse_pin_tool m d).1 p s).getD ∅)) ∧
    (∀ (m : Model) (mods : List PTModule) (extra : PTModule),
      (∀ e ∈ m, ∀ se ∈ e.2.signals, (ptNames e.1 se.1).1 ≠ extra.name) →
      parse_pin_tool m { modules := mods ++ [extra] } =
        parse_pin_tool m { modules := mods }) := by
  constructor
  · intro m d
    refine ⟨?_, ?_, ?_, ?_, ?_, ?_⟩
    · show (m.map _).map Prod.fst = m.map Prod.fst
      rw [List.map_map]
      exact List.map_congr_left (fun e _ => rfl)
    · intro p
      have hl : ((parse_pin_tool m d).1).lookup p =
          (m.lookup p).map (fun pd =>
            { pd with
              signals := pd.signals.map
                (fun se => (se.1, (ptProcessSignal d p se.1 se.2).1)) }) :=
        lookup_map_dep m (fun q pd =>
          { pd with
            signals := pd.signals.map
              (fun se => (se.1, (ptProcessSignal d q se.1 se.2).1)) }) p
      rw [hl]
      cases m.lookup p <;> rfl
    · intro p
      have hl : ((parse_pin_tool m d).1).lookup p =
          (m.lookup p).map (fun pd =>
            { pd with
              signals := pd.signals.map
                (fun se => (se.1, (ptProcessSignal d p se.1 se.2).1)) }) :=
        lookup_map_dep m (fun q pd =>
          { pd with
            signals := pd.signals.map
              (fun se => (se.1, (ptProcessSignal d q se.1 se.2).1)) }) p
      rw [hl]
      cases m.lookup p with
      | none => rfl
      | some pd =>
        simp only [Option.map_some']
        rw [List.map_map]
        exact congrArg some (List.map_congr_left (fun e _ => rfl))
    · intro p s
      rw [getSig_parse_pin_tool]
      cases getSig m p s with
      | none => rfl
      | some sd =>
        simp only [Option.map_some']
        rw [ptProcessSignal_en]
    · intro p s
      rw [getSig_parse_pin_tool]
      cases getSig m p s with
      | none => rfl
      | some sd =>
        simp only [Option.map_some']
        rw [ptProcessSignal_route]
    · intro p s
      unfold sigPinSet
      rw [getSig_parse_pin_tool]
      cases getSig m p s with
      | none => simp
      | some sd =>
        simp only [Option.map_some', Option.getD_some]
        rw [ptProcessSignal_pinout, Option.getD_some, locSet_addLocs]
        exact Finset.subset_union_left
  · intro m mods extra h
    have hsig : ∀ e ∈ m, ∀ se ∈ e.2.signals,
        ptProcessSignal { modules := mods ++ [extra] } e.1 se.1 se.2 =
          ptProcessSignal { modules := mods } e.1 se.1 se.2 := by
      intro e he se hse
      simp only [ptProcessSignal]
      rw [findSelector_append_extra mods extra _ _ (h e he se hse)]
    unfold parse_pin_tool
    refine congrArg₂ Prod.mk ?_ ?_
    · exact List.map_congr_left (fun e he => by
        refine congrArg _ ?_
        refine congrArg _ ?_
        exact List.map_congr_left (fun se hse => by rw [hsig e he se hse]))
    · exact flatMap_congr_left (fun e he =>
        flatMap_congr_left (fun se hse => by rw [hsig e he se hse]))

/-- Witness for C6: appending the module `USART0` (absent from `c5model`'s
lookup names) to variant A's routing document leaves the extractor's output
unchanged. -/
theorem claim_C6_witness :
    parse_pin_tool c5model { modules := c5docA.modules ++ [c6extraModule] } =
      parse_pin_tool c5model { modules := c5docA.modules } :=
  claim_C6.2 c5model c5docA.modules c6extraModule (by decide)


/-! ## Serializer characterization (claims C1 and C3) -/

theorem emitSigDefs_cons (p : String) (b : Nat) (x : String × SigData)
    (t : List (String × SigData)) :
    emitSigDefs p b (x :: t) =
      match x.2.route with
      | some rt =>
        (Emit.macroDef p x.1 b x.2.en.isSome (x.2.en.getD 0) rt :: (emitSigDefs p b t).1,
          (emitSigDefs p b t).2)
      | none => ((emitSigDefs p b t).1, Warn.noRoute p x.1 :: (emitSigDefs p b t).2) := by
  cases x with
  | mk s sd => rfl

theorem mem_emitSigDefs_fst {p : String} {b : Nat} {sigs : List (String × SigData)}
    {e : Emit} (he : e ∈ (emitSigDefs p b sigs).1) :
    ∃ se ∈ sigs, ∃ rt, se.2.route = some rt ∧
      e = Emit.macroDef p se.1 b se.2.en.isSome (se.2.en.getD 0) rt := by
  induction sigs with
  | nil => cases he
  | cons x t ih =>
    rw [emitSigDefs_cons] at he
    cases hr : x.2.route with
    | some rt =>
      rw [hr] at he
      simp only [List.mem_cons] at he
      rcases he with he | he
      · exact ⟨x, List.mem_cons_self _ _, rt, hr, he⟩
      · obtain ⟨se, hse, rt2, hrt2, hE⟩ := ih he
        exact ⟨se, List.mem_cons_of_mem _ hse, rt2, hrt2, hE⟩
    | none =>
      rw [hr] at he
      obtain ⟨se, hse, rt2, hrt2, hE⟩ := ih he
      exact ⟨se, List.mem_cons_of_mem _ hse, rt2, hrt2, hE⟩

theorem mem_emitSigDefs_snd {p : String} {b : Nat} {sigs : List (String × SigData)}
    {w : Warn} (hw : w ∈ (emitSigDefs p b sigs).2) :
    ∃ se ∈ sigs, se.2.route = none ∧ w = Warn.noRoute p se.1 := by
  induction sigs with
  | nil => cases hw
  | cons x t ih =>
    rw [emitSigDefs_cons] at hw
    cases hr : x.2.route with
    | some rt =>
      rw [hr] at hw
      obtain ⟨se, hse, hrt, hW⟩ := ih hw
      exact ⟨se, List.mem_cons_of_mem _ hse, hrt, hW⟩
    | none =>
      rw [hr] at hw
      simp only [List.mem_cons] at hw
      rcases hw with hw | hw
      · exact ⟨x, List.mem_cons_self _ _, hr, hw⟩
      · obtain ⟨se, hse, hrt, hW⟩ := ih hw
        exact ⟨se, List.mem_cons_of_mem _ hse, hrt, hW⟩

theorem count_noRoute_emitSigDefs_notmem (p : String) (b : Nat)
    (sigs : List (String × SigData)) (P S : String)
    (h : ∀ se ∈ sigs, Warn.noRoute p se.1 ≠ Warn.noRoute P S) :
    ((emitSigDefs p b sigs).2).count (Warn.noRoute P S) = 0 := by
  rw [List.count_eq_zero]
  intro hmem
  obtain ⟨se, hse, _, hW⟩ := mem_emitSigDefs_snd hmem
  exact h se hse hW.symm

theorem count_noRoute_emitSigDefs (p : String) (b : Nat)
    (sigs : List (String × SigData)) (S : String) (sd : SigData)
    (hnd : (sigs.map Prod.fst).Nodup) (hl : sigs.lookup S = some sd)
    (hr : sd.route = none) :
    ((emitSigDefs p b sigs).2).count (Warn.noRoute p S) = 1 := by
  induction sigs with
  | nil => cases hl
  | cons x t ih =>
    obtain ⟨a, v⟩ := x
    simp only [List.map_cons, List.nodup_cons] at hnd
    rw [emitSigDefs_cons]
    by_cases hx : S = a
    · subst hx
      have hv : v = sd := by
        rw [List.lookup_cons] at hl
        simpa using hl
      subst hv
      rw [hr]
      have h0 : ((emitSigDefs p b t).2).count (Warn.noRoute p S) = 0 := by
        apply count_noRoute_emitSigDefs_notmem
        intro se hse hW
        injection hW with h1 h2
        exact hnd.1 (h2 ▸ List.mem_map_of_mem Prod.fst hse)
      simp only [List.count_cons_self, h0]
    · have hbS : (S == a) = false := beq_eq_false_iff_ne.mpr hx
      have hlt : t.lookup S = some sd := by
        rw [List.lookup_cons, hbS] at hl
        exact hl
      have hcount := ih hnd.2 hlt
      cases hv : v.route with
      | some rt => exact hcount
      | none =>
        rw [List.count_cons_of_ne (by
          intro hW
          injection hW with h1 h2
          exact hx h2)]
        exact hcount


theorem emitDefs_cons_fst (x : String × PeriphData) (t : Model) :
    (emitDefs (x :: t)).1 =
      Emit.raw "" :: (emitSigDefs x.1 x.2.base x.2.signals).1 ++ (emitDefs t).1 := by
  cases x with
  | mk p pd => rfl

theorem emitDefs_cons_snd (x : String × PeriphData) (t : Model) :
    (emitDefs (x :: t)).2 =
      (emitSigDefs x.1 x.2.base x.2.signals).2 ++ (emitDefs t).2 := by
  cases x with
  | mk p pd => rfl

theorem mem_emitDefs_fst {m : Model} {e : Emit} (he : e ∈ (emitDefs m).1) :
    e = Emit.raw "" ∨ ∃ en ∈ m, e ∈ (emitSigDefs en.1 en.2.base en.2.signals).1 := by
  induction m with
  | nil => simp [emitDefs] at he
  | cons x t ih =>
    rw [emitDefs_cons_fst] at he
    rcases List.mem_cons.mp he with he | he
    · exact Or.inl he
    · rcases List.mem_append.mp he with he | he
      · exact Or.inr ⟨x, List.mem_cons_self _ _, he⟩
      · rcases ih he with h1 | ⟨en, hen, h2⟩
        · exact Or.inl h1
        · exact Or.inr ⟨en, List.mem_cons_of_mem _ hen, h2⟩

theorem count_noRoute_emitDefs_zero (t : Model) (P S : String)
    (h : P ∉ t.map Prod.fst) : ((emitDefs t).2).count (Warn.noRoute P S) = 0 := by
  induction t with
  | nil => rfl
  | cons y u ih =>
    rw [emitDefs_cons_snd]
    simp only [List.map_cons, List.mem_cons, not_or] at h
    rw [List.count_append, ih h.2,
      count_noRoute_emitSigDefs_notmem y.1 y.2.base y.2.signals P S
        (fun se _ hW => by
          injection hW with h1 h2
          exact h.1 h1.symm)]

theorem count_noRoute_emitDefs (m : Model) (P S : String) (pd : PeriphData) (sd : SigData)
    (hnd : (m.map Prod.fst).Nodup) (hp : m.lookup P = some pd)
    (hnds : (pd.signals.map Prod.fst).Nodup) (hs : pd.signals.lookup S = some sd)
    (hr : sd.route = none) :
    ((emitDefs m).2).count (Warn.noRoute P S) = 1 := by
  induction m with
  | nil => cases hp
  | cons x t ih =>
    obtain ⟨q, qd⟩ := x
    simp only [List.map_cons, List.nodup_cons] at hnd
    rw [emitDefs_cons_snd]
    rw [List.count_append]
    by_cases hqP : P = q
    · subst hqP
      have hpd : qd = pd := by
        rw [List.lookup_cons] at hp
        simpa using hp
      subst hpd
      rw [count_noRoute_emitSigDefs P qd.base qd.signals S sd hnds hs hr,
        count_noRoute_emitDefs_zero t P S hnd.1]
    · have hb : (P == q) = false := beq_eq_false_iff_ne.mpr hqP
      have hpt : t.lookup P = some pd := by
        rw [List.lookup_cons, hb] at hp
        exact hp
      rw [count_noRoute_emitSigDefs_notmem q qd.base qd.signals P S
        (fun se _ hW => by
          injection hW with h1 h2
          exact hqP h1.symm),
        ih hnd.2 hpt]

theorem macroDef_not_mem_emitDefs {m : Model} {P S : String} {pd : PeriphData}
    {sd : SigData}
    (hnd : (m.map Prod.fst).Nodup) (hp : m.lookup P = some pd)
    (hnds : (pd.signals.map Prod.fst).Nodup) (hs : pd.signals.lookup S = some sd)
    (hr : sd.route = none) (b : Nat) (he : Bool) (en : Nat) (rt : Int) :
    Emit.macroDef P S b he en rt ∉ (emitDefs m).1 := by
  intro hmem
  rcases mem_emitDefs_fst hmem with h1 | ⟨e0, he0, h2⟩
  · cases h1
  · obtain ⟨q, qd⟩ := e0
    obtain ⟨se, hse, rt2, hrt2, hE⟩ := mem_emitSigDefs_fst h2
    obtain ⟨s1, sd1⟩ := se
    injection hE with hE1 hE2 hE3 hE4 hE5 hE6
    have hmemP : (P, qd) ∈ m := by
      rw [hE1]
      exact he0
    have hpd : qd = pd := by
      have hl := lookup_eq_of_mem_nodup hnd hmemP
      rw [hl] at hp
      exact Option.some.inj hp
    have hmemS : (S, sd1) ∈ pd.signals := by
      rw [← hpd, hE2]
      exact hse
    have hsd : sd1 = sd := by
      have hl2 := lookup_eq_of_mem_nodup hnds hmemS
      rw [hl2] at hs
      exact Option.some.inj hs
    rw [hsd, hr] at hrt2
    cases hrt2


theorem pinDefsOf_append (l1 l2 : List Emit) (p s : String) :
    pinDefsOf (l1 ++ l2) p s = pinDefsOf l1 p s ++ pinDefsOf l2 p s :=
  List.filterMap_append l1 l2 _

theorem mem_pinDefsOf_of_mem {es : List Emit} {P S : String} {port pin : Nat}
    (h : Emit.pinDef P S port pin ∈ es) : (port, pin) ∈ pinDefsOf es P S := by
  rw [pinDefsOf, List.mem_filterMap]
  refine ⟨Emit.pinDef P S port pin, h, ?_⟩
  simp

theorem pinDefsOf_emitSigDefs (p0 P S : String) (b : Nat)
    (sigs : List (String × SigData)) :
    pinDefsOf ((emitSigDefs p0 b sigs).1) P S = [] := by
  rw [pinDefsOf, List.filterMap_eq_nil_iff]
  intro e he
  obtain ⟨se, _, rt, _, hE⟩ := mem_emitSigDefs_fst he
  rw [hE]

theorem pinDefsOf_emitDefs (m : Model) (P S : String) :
    pinDefsOf ((emitDefs m).1) P S = [] := by
  rw [pinDefsOf, List.filterMap_eq_nil_iff]
  intro e he
  rcases mem_emitDefs_fst he with h1 | ⟨en, _, h2⟩
  · rw [h1]
  · obtain ⟨se, _, rt, _, hE⟩ := mem_emitSigDefs_fst h2
    rw [hE]

theorem pinDefsOf_headerPrelude (fam P S : String) :
    pinDefsOf (headerPrelude fam) P S = [] := rfl

theorem mem_emitPinsSig {p s : String} {po : List (Nat × List Nat)} {e : Emit}
    (he : e ∈ emitPinsSig p s po) : ∃ port pin, e = Emit.pinDef p s port pin := by
  rw [emitPinsSig, List.mem_flatMap] at he
  obtain ⟨en, _, he2⟩ := he
  rw [List.mem_map] at he2
  obtain ⟨pin, _, hE⟩ := he2
  exact ⟨en.1, pin, hE.symm⟩

theorem pinDefsOf_mapPin_self (P S : String) (port : Nat) (l : List Nat) :
    pinDefsOf (l.map (fun pin => Emit.pinDef P S port pin)) P S =
      l.map (fun pin => (port, pin)) := by
  induction l with
  | nil => rfl
  | cons a t ih =>
    rw [List.map_cons, List.map_cons, pinDefsOf, List.filterMap_cons]
    simp only []
    rw [show ((P == P && S == S)) = true by simp]
    rw [pinDefsOf] at ih
    simp only [if_true]
    rw [ih]

theorem pinDefsOf_emitPinsSig_self (P S : String) (po : List (Nat × List Nat)) :
    pinDefsOf (emitPinsSig P S po) P S =
      po.flatMap (fun en =>
        (List.insertionSort (· ≤ ·) en.2).map (fun pin => (en.1, pin))) := by
  induction po with
  | nil => rfl
  | cons e t ih =>
    rw [emitPinsSig, List.flatMap_cons, List.flatMap_cons, ← emitPinsSig,
      pinDefsOf_append, ih, pinDefsOf_mapPin_self]

theorem pinDefsOf_emitPinsSig_ne (p' s' P S : String) (po : List (Nat × List Nat))
    (h : (p' == P && s' == S) = false) :
    pinDefsOf (emitPinsSig p' s' po) P S = [] := by
  rw [pinDefsOf, List.filterMap_eq_nil_iff]
  intro e he
  obtain ⟨port, pin, hE⟩ := mem_emitPinsSig he
  rw [hE]
  simp only [h]
  rfl

theorem emitPinsSigs_cons (p : String) (x : String × SigData)
    (t : List (String × SigData)) :
    emitPinsSigs p (x :: t) =
      match x.2.pinout with
      | none => Except.error ("KeyError: pinout of " ++ p ++ "_" ++ x.1)
      | some po =>
        match emitPinsSigs p t with
        | Except.error msg => Except.error msg
        | Except.ok es => Except.ok (emitPinsSig p x.1 po ++ es) := by
  cases x with
  | mk s sd => rfl

theorem pinDefsOf_emitPinsSigs_zero (p : String) {sigs : List (String × SigData)} :
    ∀ {es : List Emit}, emitPinsSigs p sigs = Except.ok es → ∀ P S : String,
      (∀ se ∈ sigs, (p == P && se.1 == S) = false) → pinDefsOf es P S = [] := by
  induction sigs with
  | nil =>
    intro es hok P S _
    injection hok with hok
    rw [← hok]
    rfl
  | cons x t ih =>
    intro es hok P S h
    rw [emitPinsSigs_cons] at hok
    cases hx : x.2.pinout with
    | none => rw [hx] at hok; cases hok
    | some po =>
      rw [hx] at hok
      cases hr : emitPinsSigs p t with
      | error msg => rw [hr] at hok; cases hok
      | ok es2 =>
        rw [hr] at hok
        injection hok with hok
        rw [← hok, pinDefsOf_append,
          pinDefsOf_emitPinsSig_ne _ _ _ _ _ (h x (List.mem_cons_self _ _)),
          ih hr P S (fun se hse => h se (List.mem_cons_of_mem _ hse))]
        rfl

theorem pinDefsOf_emitPinsSigs (p : String) {sigs : List (String × SigData)} :
    ∀ {es : List Emit}, emitPinsSigs p sigs = Except.ok es →
      ∀ (S : String) (sd : SigData) (po : List (Nat × List Nat)),
      (sigs.map Prod.fst).Nodup → sigs.lookup S = some sd → sd.pinout = some po →
      pinDefsOf es p S =
        po.flatMap (fun en =>
          (List.insertionSort (· ≤ ·) en.2).map (fun pin => (en.1, pin))) := by
  induction sigs with
  | nil => intro es _ S sd po _ hs _; cases hs
  | cons x t ih =>
    intro es hok S sd po hnd hs hpo
    obtain ⟨a, v⟩ := x
    simp only [List.map_cons, List.nodup_cons] at hnd
    rw [emitPinsSigs_cons] at hok
    cases hx : v.pinout with
    | none => rw [hx] at hok; cases hok
    | some po_x =>
      rw [hx] at hok
      cases hr : emitPinsSigs p t with
      | error msg => rw [hr] at hok; cases hok
      | ok es2 =>
        rw [hr] at hok
        injection hok with hok
        rw [← hok, pinDefsOf_append]
        by_cases hxs : S = a
        · subst hxs
          have hv : v = sd := by
            rw [List.lookup_cons] at hs
            simpa using hs
          subst hv
          have hpo_eq : po_x = po := by
            rw [hx] at hpo
            exact Option.some.inj hpo
          subst hpo_eq
          rw [pinDefsOf_emitPinsSig_self,
            pinDefsOf_emitPinsSigs_zero p hr p S (fun se hse => by
              have hne : se.1 ≠ S := fun heq =>
                hnd.1 (heq ▸ List.mem_map_of_mem Prod.fst hse)
              rw [Bool.and_eq_false_iff]
              right
              exact beq_eq_false_iff_ne.mpr hne),
            List.append_nil]
        · have hbS : (S == a) = false := beq_eq_false_iff_ne.mpr hxs
          have hlt : t.lookup S = some sd := by
            rw [List.lookup_cons, hbS] at hs
            exact hs
          rw [pinDefsOf_emitPinsSig_ne _ _ _ _ _ (by
              rw [Bool.and_eq_false_iff]
              right
              exact beq_eq_false_iff_ne.mpr (fun heq => hxs heq.symm)),
            ih hr S sd po hnd.2 hlt hpo]
          rfl


theorem emitPins_cons (x : String × PeriphData) (t : Model) :
    emitPins (x :: t) =
      match emitPinsSigs x.1 x.2.signals with
      | Except.error msg => Except.error msg
      | Except.ok a =>
        match emitPins t with
        | Except.error msg => Except.error msg
        | Except.ok b => Except.ok (Emit.raw "" :: a ++ b) := by
  cases x with
  | mk p pd => rfl

theorem mem_emitPinsSigs {p : String} {sigs : List (String × SigData)} :
    ∀ {es : List Emit}, emitPinsSigs p sigs = Except.ok es → ∀ {e : Emit}, e ∈ es →
      ∃ s port pin, e = Emit.pinDef p s port pin := by
  induction sigs with
  | nil =>
    intro es hok e he
    injection hok with hok
    rw [← hok] at he
    cases he
  | cons x t ih =>
    intro es hok e he
    rw [emitPinsSigs_cons] at hok
    cases hx : x.2.pinout with
    | none => rw [hx] at hok; cases hok
    | some po =>
      rw [hx] at hok
      cases hr : emitPinsSigs p t with
      | error msg => rw [hr] at hok; cases hok
      | ok es2 =>
        rw [hr] at hok
        injection hok with hok
        rw [← hok] at he
        rcases List.mem_append.mp he with he | he
        · obtain ⟨port, pin, hE⟩ := mem_emitPinsSig he
          exact ⟨x.1, port, pin, hE⟩
        · exact ih hr he

theorem mem_emitPins {m : Model} :
    ∀ {es : List Emit}, emitPins m = Except.ok es → ∀ {e : Emit}, e ∈ es →
      e = Emit.raw "" ∨ ∃ q s port pin, e = Emit.pinDef q s port pin := by
  induction m with
  | nil =>
    intro es hok e he
    injection hok with hok
    rw [← hok] at he
    cases he
  | cons x t ih =>
    intro es hok e he
    rw [emitPins_cons] at hok
    cases ha : emitPinsSigs x.1 x.2.signals with
    | error msg => rw [ha] at hok; cases hok
    | ok a =>
      rw [ha] at hok
      cases hb : emitPins t with
      | error msg => rw [hb] at hok; cases hok
      | ok b =>
        rw [hb] at hok
        injection hok with hok
        rw [← hok] at he
        rcases List.mem_cons.mp he with he | he
        · exact Or.inl he
        · rcases List.mem_append.mp he with he | he
          · obtain ⟨s, port, pin, hE⟩ := mem_emitPinsSigs ha he
            exact Or.inr ⟨x.1, s, port, pin, hE⟩
          · exact ih hb he


theorem pinDefsOf_emitPinsSigs_ne_p (p' : String) {sigs : List (String × SigData)} :
    ∀ {es : List Emit}, emitPinsSigs p' sigs = Except.ok es → ∀ P S : String,
      p' ≠ P → pinDefsOf es P S = [] := by
  intro es hok P S hne
  rw [pinDefsOf, List.filterMap_eq_nil_iff]
  intro e he
  obtain ⟨s, port, pin, hE⟩ := mem_emitPinsSigs hok he
  rw [hE]
  simp only [beq_eq_false_iff_ne.mpr hne, Bool.false_and]
  rfl

theorem pinDefsOf_emitPins_zero {m : Model} :
    ∀ {es : List Emit}, emitPins m = Except.ok es → ∀ P S : String,
      P ∉ m.map Prod.fst → pinDefsOf es P S = [] := by
  induction m with
  | nil =>
    intro es hok P S _
    injection hok with hok
    rw [← hok]
    rfl
  | cons x t ih =>
    intro es hok P S h
    simp only [List.map_cons, List.mem_cons, not_or] at h
    rw [emitPins_cons] at hok
    cases ha : emitPinsSigs x.1 x.2.signals with
    | error msg => rw [ha] at hok; cases hok
    | ok a =>
      rw [ha] at hok
      cases hb : emitPins t with
      | error msg => rw [hb] at hok; cases hok
      | ok b =>
        rw [hb] at hok
        injection hok with hok
        rw [← hok]
        show pinDefsOf (Emit.raw "" :: a ++ b) P S = []
        rw [show pinDefsOf (Emit.raw "" :: a ++ b) P S = pinDefsOf (a ++ b) P S from rfl,
          pinDefsOf_append, pinDefsOf_emitPinsSigs_ne_p x.1 ha P S (fun he => h.1 he.symm),
          ih hb P S h.2]
        rfl

theorem pinDefsOf_emitPins {m : Model} :
    ∀ {es : List Emit}, emitPins m = Except.ok es →
      ∀ (P S : String) (pd : PeriphData) (sd : SigData) (po : List (Nat × List Nat)),
      (m.map Prod.fst).Nodup → m.lookup P = some pd →
      (pd.signals.map Prod.fst).Nodup → pd.signals.lookup S = some sd →
      sd.pinout = some po →
      pinDefsOf es P S =
        po.flatMap (fun en =>
          (List.insertionSort (· ≤ ·) en.2).map (fun pin => (en.1, pin))) := by
  induction m with
  | nil => intro es _ P S pd sd po _ hp _ _ _; cases hp
  | cons x t ih =>
    intro es hok P S pd sd po hnd hp hnds hs hpo
    obtain ⟨q, qd⟩ := x
    simp only [List.map_cons, List.nodup_cons] at hnd
    rw [emitPins_cons] at hok
    cases ha : emitPinsSigs q qd.signals with
    | error msg => rw [ha] at hok; cases hok
    | ok a =>
      rw [ha] at hok
      cases hb : emitPins t with
      | error msg => rw [hb] at hok; cases hok
      | ok b =>
        rw [hb] at hok
        injection hok with hok
        rw [← hok]
        show pinDefsOf (Emit.raw "" :: a ++ b) P S = _
        rw [show pinDefsOf (Emit.raw "" :: a ++ b) P S = pinDefsOf (a ++ b) P S from rfl,
          pinDefsOf_append]
        by_cases hqP : P = q
        · subst hqP
          have hpd : qd = pd := by
            rw [List.lookup_cons] at hp
            simpa using hp
          subst hpd
          rw [pinDefsOf_emitPinsSigs P ha S sd po hnds hs hpo,
            pinDefsOf_emitPins_zero hb P S hnd.1, List.append_nil]
        · have hb2 : (P == q) = false := beq_eq_false_iff_ne.mpr hqP
          have hpt : t.lookup P = some pd := by
            rw [List.lookup_cons, hb2] at hp
            exact hp
          rw [pinDefsOf_emitPinsSigs_ne_p q ha P S (fun he => hqP he.symm),
            ih hb P S pd sd po hnd.2 hpt hnds hs hpo]
          rfl


theorem mem_headerPrelude {fam : String} {e : Emit} (he : e ∈ headerPrelude fam) :
    ∃ l, e = Emit.raw l := by
  simp only [headerPrelude, List.mem_cons, List.not_mem_nil, or_false] at he
  rcases he with h | h | h | h | h | h | h | h <;> exact ⟨_, h⟩

theorem write_header_ok_inv {fam : String} {m : Model} {es : List Emit} {ws : List Warn}
    (h : write_header fam m = Except.ok (es, ws)) :
    ∃ es2, emitPins m = Except.ok es2 ∧
      es = headerPrelude fam ++ (emitDefs m).1 ++ es2 ++ [Emit.raw ""] ∧
      ws = (emitDefs m).2 := by
  unfold write_header at h
  cases hp : emitPins m with
  | error msg => rw [hp] at h; cases h
  | ok b =>
    rw [hp] at h
    injection h with h
    rw [Prod.mk.injEq] at h
    exact ⟨b, rfl, h.1.symm, h.2.symm⟩

/-- C1 (amended): a signal that never received a `"route"` key gets no
parameterized macro and exactly one warning; and when its pinout holds no
ports at all, no concrete (port, pin) macro is emitted for it either.  (The
counterexample shows concrete macros are still emitted for a non-empty
pinout.) -/
theorem claim_C1_amended (fam P S : String) (m : Model) (pd : PeriphData) (sd : SigData)
    (hwf : WFModel m) (hp : m.lookup P = some pd) (hs : pd.signals.lookup S = some sd)
    (hroute : sd.route = none) (hok : exOk (write_header fam m) = true) :
    (∀ b he en rt, Emit.macroDef P S b he en rt ∉ linesOf (write_header fam m)) ∧
    (warnsOf (write_header fam m)).count (Warn.noRoute P S) = 1 ∧
    (sd.pinout.getD [] = [] →
      ∀ port pin, Emit.pinDef P S port pin ∉ linesOf (write_header fam m)) := by
  obtain ⟨pr, hpr⟩ := (exOk_iff _).mp hok
  obtain ⟨es, ws⟩ := pr
  obtain ⟨es2, hes2, hES, hWS⟩ := write_header_ok_inv hpr
  have hnds : (pd.signals.map Prod.fst).Nodup := hwf.2 (P, pd) (lookup_mem hp)
  have hlines : linesOf (write_header fam m) = es := by rw [hpr]; rfl
  have hwarns : warnsOf (write_header fam m) = ws := by rw [hpr]; rfl
  refine ⟨?_, ?_, ?_⟩
  · intro b he en rt hmem
    rw [hlines, hES] at hmem
    rcases List.mem_append.mp hmem with h1 | h1
    · rcases List.mem_append.mp h1 with h2 | h2
      · rcases List.mem_append.mp h2 with h3 | h3
        · obtain ⟨l, hl⟩ := mem_headerPrelude h3
          exact Emit.noConfusion hl
        · exact macroDef_not_mem_emitDefs hwf.1 hp hnds hs hroute b he en rt h3
      · rcases mem_emitPins hes2 h2 with h4 | ⟨q, s, port, pin, h4⟩
        · exact Emit.noConfusion h4
        · exact Emit.noConfusion h4
    · rw [List.mem_singleton] at h1
      exact Emit.noConfusion h1
  · rw [hwarns, hWS]
    exact count_noRoute_emitDefs m P S pd sd hwf.1 hp hnds hs hroute
  · intro hpo0 port pin hmem
    have hall := (write_header_ok_iff fam m).mp hok (P, pd) (lookup_mem hp)
      (S, sd) (lookup_mem hs)
    obtain ⟨po, hpo⟩ := Option.isSome_iff_exists.mp hall
    have hpo_nil : po = [] := by
      rw [hpo] at hpo0
      simpa using hpo0
    rw [hlines] at hmem
    have hmem2 := mem_pinDefsOf_of_mem hmem
    rw [hES] at hmem2
    simp only [pinDefsOf_append] at hmem2
    rw [pinDefsOf_headerPrelude, pinDefsOf_emitDefs,
      pinDefsOf_emitPins hes2 P S pd sd po hwf.1 hp hnds hs hpo, hpo_nil] at hmem2
    simp [pinDefsOf] at hmem2

/-- Witness for C1 (amended) at `cexModel`: no parameterized macro and exactly
one warning for the route-less `TIMER0`/`CC0`. -/
theorem claim_C1_amended_witness :
    (Emit.macroDef "TIMER0" "CC0" 8 true 0 1 ∉ linesOf (write_header "xg24" cexModel)) ∧
    (warnsOf (write_header "xg24" cexModel)).count (Warn.noRoute "TIMER0" "CC0") = 1 := by
  have h := claim_C1_amended "xg24" "TIMER0" "CC0" cexModel
    { base := 8,
      signals := [("CC0",
        { en := some 0, route := none, pinout := some [(1, [2]), (0, [5])] })] }
    { en := some 0, route := none, pinout := some [(1, [2]), (0, [5])] }
    (by decide) (by decide) (by decide) rfl (by decide)
  exact ⟨h.1 8 true 0 1, h.2.1⟩

/-- C3 (amended): the concrete pin definitions for a signal are exactly its
pinout entries in insertion order, each port's pins sorted ascending, and the
port index appears as a letter only in the defined symbol name while the
macro arguments keep the numeric port. -/
theorem claim_C3_amended (fam P S : String) (m : Model) (pd : PeriphData) (sd : SigData)
    (po : List (Nat × List Nat))
    (hwf : WFModel m) (hp : m.lookup P = some pd) (hs : pd.signals.lookup S = some sd)
    (hpo : sd.pinout = some po) (hok : exOk (write_header fam m) = true) :
    pinDefsOf (linesOf (write_header fam m)) P S =
      po.flatMap (fun en =>
        (List.insertionSort (· ≤ ·) en.2).map (fun pin => (en.1, pin))) ∧
    (∀ en ∈ po, List.Sorted (· ≤ ·) (List.insertionSort (· ≤ ·) en.2)) ∧
    (∀ port pin, renderEmit (Emit.pinDef P S port pin) =
      "#define " ++ P ++ "_" ++ S ++ "_P" ++ portLetter port ++ toString pin ++
        " SILABS_DBUS_" ++ P ++ "_" ++ S ++ "(" ++ toString port ++ ", " ++
        toString pin ++ ")") := by
  obtain ⟨pr, hpr⟩ := (exOk_iff _).mp hok
  obtain ⟨es, ws⟩ := pr
  obtain ⟨es2, hes2, hES, hWS⟩ := write_header_ok_inv hpr
  have hnds : (pd.signals.map Prod.fst).Nodup := hwf.2 (P, pd) (lookup_mem hp)
  have hlines : linesOf (write_header fam m) = es := by rw [hpr]; rfl
  refine ⟨?_, ?_, ?_⟩
  · rw [hlines, hES]
    simp only [pinDefsOf_append]
    rw [pinDefsOf_headerPrelude, pinDefsOf_emitDefs,
      pinDefsOf_emitPins hes2 P S pd sd po hwf.1 hp hnds hs hpo]
    simp [pinDefsOf]
  · intro en _
    exact List.sorted_insertionSort _ _
  · intro port pin
    rfl

/-- Witness for C3 (amended) at `cexModel`: the emitted definitions for
`TIMER0`/`CC0` are exactly (1,2) then (0,5) — the pinout's insertion order. -/
theorem claim_C3_amended_witness :
    pinDefsOf (linesOf (write_header "xg24" cexModel)) "TIMER0" "CC0" = [(1, 2), (0, 5)] := by
  have h := claim_C3_amended "xg24" "TIMER0" "CC0" cexModel
    { base := 8,
      signals := [("CC0",
        { en := some 0, route := none, pinout := some [(1, [2]), (0, [5])] })] }
    { en := some 0, route := none, pinout := some [(1, [2]), (0, [5])] }
    [(1, [2]), (0, [5])]
    (by decide) (by decide) (by decide) rfl (by decide)
  exact h.1

end GenPinctrl
